import Mathlib

/-!
# cf CLI fragments: `add-plugin-repo`, the plugin installer facade, `delete`, `ListOrgs`

A shallow embedding of

* `cf/commands/pluginrepo/add_plugin_repo.go` (`Execute`, `checkIfRepoExists`, `verifyUrl`),
* `cf/actors/plugininstaller/plugin_installer.go` (`NewPluginInstaller`),
* `cf/commands/application/delete.go` (`Execute`),
* `cf/api/organizations/organizations.go` (`ListOrgs`),

followed by the properties proved about them.

Conventions.  A Go `string` is a Lean `String` (a list of runes, i.e. valid UTF-8 text).
Everything the command does to the outside world is recorded, in order, in a list of
`Event`s; the configured repository list is threaded through explicitly.  The network and the
JSON decoder are not part of the repository and are supplied by an `Env`.
-/

namespace strings

/-- Go `strings.HasPrefix(s, prefix)`. -/
def HasPrefix (s pre : String) : Bool := pre.data.isPrefixOf s.data

/-- Go `strings.HasSuffix(s, suffix)`. -/
def HasSuffix (s suf : String) : Bool := suf.data.isSuffixOf s.data

/-- Go `strings.ToLower(s)`: `unicode.ToLower` applied to every rune.  The rune map belongs to
the Go standard library and is taken as the parameter `lower`. -/
def ToLower (lower : Char → Char) (s : String) : String := ⟨s.data.map lower⟩

/-- Go `strings.Trim(s, cutset)`: all leading and trailing runes contained in `cutset` removed. -/
def Trim (s cutset : String) : String :=
  ⟨((s.data.dropWhile (fun r => cutset.data.contains r)).reverse.dropWhile
      (fun r => cutset.data.contains r)).reverse⟩

end strings

namespace models

/-- The `models.PluginRepo` descriptor, with the two fields `Execute` fills in. -/
structure PluginRepo where
  Name : String
  Url : String
deriving DecidableEq, Repr

end models

namespace pluginrepo

open models

/-- The Go `error` returned by `http.Get`, as far as `Execute` inspects it. -/
structure RequestError where
  /-- The value of `err.Error()`. -/
  Error : String
  /-- The value `err` is a `*url.Error`. -/
  isUrlError : Bool
  /-- The wrapped `urlErr.Err` is a `*net.OpError`. -/
  isOpError : Bool
  /-- The field `opErr.Op` of the wrapped error. -/
  Op : String
deriving DecidableEq, Repr

/-- Result of `ioutil.ReadAll(resp.Body)`. -/
inductive ReadResult where
  | ok (body : String)
  | err (Error : String)
deriving DecidableEq, Repr

/-- The `*http.Response` fields `Execute` uses. -/
structure Response where
  StatusCode : Int
  Body : ReadResult
deriving DecidableEq, Repr

/-- Result of `http.Get(url)`: either a response or an error, never both. -/
inductive GetResult where
  | resp (r : Response)
  | err (e : RequestError)
deriving DecidableEq, Repr

/-- The `clipr.PluginsJson` value filled in by `json.Unmarshal`; a nil slice is `none`. -/
structure PluginsJson (Plugin : Type) where
  Plugins : Option (List Plugin)

/-- Result of `json.Unmarshal(body, &result)`. -/
inductive UnmarshalResult (Plugin : Type) where
  | ok (result : PluginsJson Plugin)
  | err (Error : String)

/-- What lies outside the repository: the rune map of `unicode.ToLower`, the network behind
`http.Get`, and `json.Unmarshal` into a `clipr.PluginsJson`. -/
structure Env (Plugin : Type) where
  lower : Char → Char
  Get : String → GetResult
  Unmarshal : String → UnmarshalResult Plugin

/-- Observable effects of the command, in the order they happen. -/
inductive Event where
  | Say (message : String)
  | Failed (message : String) (args : List String)
  | Ok
  | Get (url : String)
  | ReadAll
  | Close
  | SetPluginRepo (repo : PluginRepo)
deriving DecidableEq, Repr

/-- How a run of the command ends. -/
inductive Outcome where
  /-- The function body ran to its end. -/
  | returned
  /-- A call `cmd.ui.Failed(message, args...)` ended the command. -/
  | failed (message : String) (args : List String)
  /-- Go runtime panic: `c.Args()[i]` with too few arguments. -/
  | indexOutOfRange
deriving DecidableEq, Repr

/-- Final state of a run: how it ended, the configured repositories afterwards, the effects. -/
structure Result where
  outcome : Outcome
  repos : List PluginRepo
  trace : List Event
deriving DecidableEq, Repr

/-- Modelled from the spec: `terminal.UI.Failed` is not under `src/`.  The spec has every
failure reported and the command rejected (exit non-zero, "before any network I/O"); the call
therefore ends the command: the message is emitted and nothing after the call runs. -/
def Failed (repos : List PluginRepo) (trace : List Event) (message : String)
    (args : List String) : Result :=
  ⟨.failed message args, repos, trace ++ [.Failed message args]⟩

/-- Modelled from the spec: `coreconfig.ReadWriter.SetPluginRepo` is not under `src/`.  The
spec's configuration store exposes `addRepository(descriptor)`: the descriptor is added to the
configured list. -/
def SetPluginRepo (repos : List PluginRepo) (repo : PluginRepo) : List PluginRepo :=
  repos ++ [repo]

/-- The method `AddPluginRepo.checkIfRepoExists`: `none` when the loop over
`cmd.config.PluginRepos()` ends without a call of `Failed`, otherwise the message of the first
such call (`T` taken as the identity translation with its placeholders filled in). -/
def checkIfRepoExists (lower : Char → Char) (repos : List PluginRepo)
    (repoName repoUrl : String) : Option String :=
  match repos with
  | [] => none
  | repo :: rest =>
    if strings.ToLower lower repo.Name = strings.ToLower lower repoName then
      some ("Plugin repo named \"" ++ repoName ++ "\" already exists, please use another name.")
    else if repo.Url = repoUrl then
      some (repo.Url ++ " (" ++ repo.Name ++ ") already exists.")
    else
      checkIfRepoExists lower rest repoName repoUrl

/-- Result of `verifyUrl`: the index URL, or the message of the `Failed` call. -/
inductive VerifyResult where
  | ok (repoUrl : String)
  | failed (message : String)
deriving DecidableEq, Repr

/-- The method `AddPluginRepo.verifyUrl`. -/
def verifyUrl (repoUrl : String) : VerifyResult :=
  if !strings.HasPrefix repoUrl "http://" && !strings.HasPrefix repoUrl "https://" then
    .failed (repoUrl ++ " is not a valid url, please provide a url, e.g. http://your_repo.com")
  else if strings.HasSuffix repoUrl "/" then
    .ok (repoUrl ++ "list")
  else
    .ok (repoUrl ++ "/list")

/-- The proxy hint of the dial branch. -/
def tip : String :=
  "TIP: If you are behind a firewall and require an HTTP proxy, verify the https_proxy environment variable is correctly set. Else, check your network connection."

/-- Lines 90-116 of `Execute`: everything after `defer resp.Body.Close()`, for the response
`resp` of the request to `repoUrl`; `arg0`, `arg1` are `c.Args()[0]`, `c.Args()[1]`. -/
def afterGet {Plugin : Type} (env : Env Plugin) (repos : List PluginRepo) (trace : List Event)
    (arg0 arg1 repoUrl : String) (resp : Response) : Result :=
  if resp.StatusCode = 404 then
    Failed repos trace (repoUrl ++ " is not responding. Please make sure it is a valid plugin repo.") []
  else
    match resp.Body with
    | .err e => Failed repos (trace ++ [.ReadAll]) ("Error reading response from server: " ++ e) []
    | .ok body =>
      match env.Unmarshal body with
      | .err e =>
        Failed repos (trace ++ [.ReadAll]) ("Error processing data from server: " ++ e) []
      | .ok result =>
        match result.Plugins with
        | none =>
          Failed repos (trace ++ [.ReadAll]) "\"Plugins\" object not found in the responded data." []
        | some _ =>
          ⟨.returned, SetPluginRepo repos ⟨arg0, arg1⟩,
            trace ++ [.ReadAll, .SetPluginRepo ⟨arg0, arg1⟩, .Ok,
              .Say (repoUrl ++ " added as '" ++ arg0 ++ "'"), .Say ""]⟩

/-- The method `AddPluginRepo.Execute`, run on the configured repositories `repos` with the
command-line arguments `args` (the value of `c.Args()`). -/
def Execute {Plugin : Type} (env : Env Plugin) (repos : List PluginRepo)
    (args : List String) : Result :=
  let trace := [Event.Say ""]
  match args with
  | [] => ⟨.indexOutOfRange, repos, trace⟩
  | [_] => ⟨.indexOutOfRange, repos, trace⟩
  | arg0 :: arg1 :: _ =>
    let repoUrl := strings.ToLower env.lower arg1
    let repoName := strings.Trim arg0 " "
    match checkIfRepoExists env.lower repos repoName repoUrl with
    | some message => Failed repos trace message []
    | none =>
      match verifyUrl repoUrl with
      | .failed message => Failed repos trace message []
      | .ok repoUrl =>
        match env.Get repoUrl with
        | .err err =>
          if err.isUrlError && err.isOpError && err.Op = "dial" then
            Failed repos (trace ++ [.Get repoUrl])
              ("There is an error performing request on '" ++ repoUrl ++ "': " ++ err.Error
                ++ "\n" ++ tip) []
          else
            Failed repos (trace ++ [.Get repoUrl])
              ("There is an error performing request on '" ++ repoUrl ++ "': ") [err.Error]
        | .resp resp =>
          let r := afterGet env repos (trace ++ [.Get repoUrl]) arg0 arg1 repoUrl resp
          { r with trace := r.trace ++ [.Close] }

end pluginrepo

namespace plugininstaller

/-- The struct `PluginInstallerContext`; the collaborator types are parameters. -/
structure PluginInstallerContext (Sha1Checksum Downloader RepoActor UI : Type) where
  Checksummer : Sha1Checksum
  FileDownloader : Downloader
  GetPluginRepos : Unit → List models.PluginRepo
  PluginRepo : RepoActor
  RepoName : String
  Ui : UI

/-- The struct `PluginDownloader`, with the fields of the composite literal on line 29. -/
structure PluginDownloader (Downloader UI : Type) where
  Ui : UI
  FileDownloader : Downloader

/-- The struct `PluginInstallerWithoutRepo`, with the fields of the literal on lines 31-35. -/
structure PluginInstallerWithoutRepo (Downloader UI : Type) where
  Ui : UI
  PluginDownloader : PluginDownloader Downloader UI
  RepoName : String

/-- The struct `PluginInstallerWithRepo`, with the fields of the literal on lines 37-44. -/
structure PluginInstallerWithRepo (Sha1Checksum Downloader RepoActor UI : Type) where
  Ui : UI
  PluginDownloader : PluginDownloader Downloader UI
  RepoName : String
  Checksummer : Sha1Checksum
  PluginRepo : RepoActor
  GetPluginRepos : Unit → List models.PluginRepo

/-- The interface `PluginInstaller`, as the sum of the two implementations the constructor
can return. -/
inductive PluginInstaller (Sha1Checksum Downloader RepoActor UI : Type) where
  | WithoutRepo (i : PluginInstallerWithoutRepo Downloader UI)
  | WithRepo (i : PluginInstallerWithRepo Sha1Checksum Downloader RepoActor UI)

/-- The function `NewPluginInstaller`. -/
def NewPluginInstaller {Sha1Checksum Downloader RepoActor UI : Type}
    (context : PluginInstallerContext Sha1Checksum Downloader RepoActor UI) :
    PluginInstaller Sha1Checksum Downloader RepoActor UI :=
  let pluginDownloader : PluginDownloader Downloader UI :=
    { Ui := context.Ui, FileDownloader := context.FileDownloader }
  if context.RepoName = "" then
    .WithoutRepo
      { Ui := context.Ui
        PluginDownloader := pluginDownloader
        RepoName := context.RepoName }
  else
    .WithRepo
      { Ui := context.Ui
        PluginDownloader := pluginDownloader
        RepoName := context.RepoName
        Checksummer := context.Checksummer
        PluginRepo := context.PluginRepo
        GetPluginRepos := context.GetPluginRepos }

/-- The installer is the direct strategy. -/
def PluginInstaller.isWithoutRepo {S D R U : Type} : PluginInstaller S D R U → Bool
  | .WithoutRepo _ => true
  | .WithRepo _ => false

/-- The `PluginDownloader` field of either implementation. -/
def PluginInstaller.downloader {S D R U : Type} : PluginInstaller S D R U → PluginDownloader D U
  | .WithoutRepo i => i.PluginDownloader
  | .WithRepo i => i.PluginDownloader

end plugininstaller

/-! ## Specification vocabulary -/

namespace pluginrepo

open models

/-- The descriptors handed to `SetPluginRepo` during a run, in order. -/
def setCalls : List Event → List PluginRepo
  | [] => []
  | .SetPluginRepo repo :: rest => repo :: setCalls rest
  | _ :: rest => setCalls rest

/-- The URLs requested with `http.Get` during a run, in order. -/
def requests : List Event → List String
  | [] => []
  | .Get url :: rest => url :: requests rest
  | _ :: rest => requests rest

/-- The text `sub` occurs in `s`. -/
def Contains (s sub : String) : Prop := sub.data <:+: s.data

/-- The message of the name-duplicate failure of `checkIfRepoExists`. -/
def nameExists (repoName : String) : String :=
  "Plugin repo named \"" ++ repoName ++ "\" already exists, please use another name."

/-- The message of the URL-duplicate failure of `checkIfRepoExists`. -/
def urlExists (repo : PluginRepo) : String :=
  repo.Url ++ " (" ++ repo.Name ++ ") already exists."

/-- The message of the failure of `verifyUrl`. -/
def notValidUrl (repoUrl : String) : String :=
  repoUrl ++ " is not a valid url, please provide a url, e.g. http://your_repo.com"

/-- The message of the 404 failure. -/
def notResponding (repoUrl : String) : String :=
  repoUrl ++ " is not responding. Please make sure it is a valid plugin repo."

/-- The message of the missing-plugins failure. -/
def pluginsNotFound : String := "\"Plugins\" object not found in the responded data."

/-- An environment for closed examples: ASCII lower-casing, every request answered with
`status` and the body `body`, every body decoded to `decoded`. -/
def fixedEnv (status : Int) (body : ReadResult) (decoded : UnmarshalResult Unit) : Env Unit where
  lower := Char.toLower
  Get := fun _ => .resp ⟨status, body⟩
  Unmarshal := fun _ => decoded

end pluginrepo

/-! ## `delete` (`cf/commands/application/delete.go`) -/

namespace application

/-- The `models.RouteSummary` field `Execute` uses. -/
structure RouteSummary where
  Guid : String
deriving DecidableEq, Repr

/-- The `models.Application` fields `Execute` uses. -/
structure Application where
  Guid : String
  Routes : List RouteSummary
deriving DecidableEq, Repr

/-- The `error` returned by `appRepo.Read`, as far as the type switch on line 83 tells errors
apart: a `*errors.ModelNotFoundError` or any other non-nil error; `text` is `apiErr.Error()`. -/
inductive ApiError where
  | ModelNotFoundError (text : String)
  | other (text : String)
deriving DecidableEq, Repr

/-- The method `apiErr.Error()`. -/
def ApiError.Error : ApiError → String
  | .ModelNotFoundError text => text
  | .other text => text

/-- Result of `appRepo.Read(appName)`. -/
inductive ReadResult where
  | ok (app : Application)
  | err (apiErr : ApiError)
deriving DecidableEq, Repr

/-- Observable effects of the command, in the order they happen; a call of a repository method
is recorded with what it returned (for `Delete` the error, `none` for nil). -/
inductive Event where
  | ConfirmDelete (modelType modelName : String) (response : Bool)
  | Say (message : String)
  | Ok
  | Warn (message : String)
  | Failed (message : String) (args : List String)
  | Read (name : String) (result : ReadResult)
  | RouteDelete (routeGuid : String) (apiErr : Option String)
  | AppDelete (appGuid : String) (apiErr : Option String)
deriving DecidableEq, Repr

/-- How a run of the command ends. -/
inductive Outcome where
  /-- The function returned: a `return` statement or the end of the body. -/
  | returned
  /-- A call `cmd.ui.Failed(message, args...)` ended the command. -/
  | failed (message : String) (args : List String)
  /-- Go runtime panic: `c.Args()[0]` without arguments. -/
  | indexOutOfRange
deriving DecidableEq, Repr

/-- Final state of a run: how it ended and the effects. -/
structure Result where
  outcome : Outcome
  trace : List Event
deriving DecidableEq, Repr

/-- What lies outside `delete.go`: the user's answer to the confirmation prompt, the two
repositories, the colouring of entity names and the configuration fields shown in the progress
message.  Every answer may depend on the effects that happened before the call. -/
structure Env where
  ConfirmDelete : List Event → String → String → Bool
  Read : List Event → String → ReadResult
  RouteDelete : List Event → String → Option String
  AppDelete : List Event → String → Option String
  EntityNameColor : String → String
  OrganizationName : String
  SpaceName : String
  Username : String

/-- The `flags.FlagContext` methods `Execute` calls. -/
structure FlagContext where
  Args : List String
  Bool : String → Bool

/-- Modelled from the spec: `terminal.UI.Failed` is not under `src/`.  As for `add-plugin-repo`,
the call reports the failure and ends the command. -/
def Failed (trace : List Event) (message : String) (args : List String) : Result :=
  ⟨.failed message args, trace ++ [.Failed message args]⟩

/-- The loop of lines 94-99: the routes are deleted in order; the first error ends the loop, and
is returned together with the effects so far. -/
def deleteRoutes (env : Env) (trace : List Event) :
    List RouteSummary → Option String × List Event
  | [] => (none, trace)
  | route :: rest =>
    match env.RouteDelete trace route.Guid with
    | some apiErr => (some apiErr, trace ++ [.RouteDelete route.Guid (some apiErr)])
    | none => deleteRoutes env (trace ++ [.RouteDelete route.Guid none]) rest

/-- Lines 93-107 of `Execute`, for the application `app` read without error. -/
def afterRead (env : Env) (c : FlagContext) (trace : List Event) (app : Application) : Result :=
  let routes := if c.Bool "r" then deleteRoutes env trace app.Routes else (none, trace)
  match routes with
  | (some apiErr, trace) => Failed trace apiErr []
  | (none, trace) =>
    match env.AppDelete trace app.Guid with
    | some apiErr => Failed (trace ++ [.AppDelete app.Guid (some apiErr)]) apiErr []
    | none => ⟨.returned, trace ++ [.AppDelete app.Guid none, .Ok]⟩

/-- Lines 74-107 of `Execute`: everything after the confirmation (`T` taken as the identity
translation with its placeholders filled in). -/
def afterConfirm (env : Env) (c : FlagContext) (trace : List Event) (appName : String) :
    Result :=
  let trace := trace ++ [.Say ("Deleting app " ++ env.EntityNameColor appName ++ " in org "
    ++ env.EntityNameColor env.OrganizationName ++ " / space "
    ++ env.EntityNameColor env.SpaceName ++ " as " ++ env.EntityNameColor env.Username ++ "...")]
  let result := env.Read trace appName
  let trace := trace ++ [.Read appName result]
  match result with
  | .ok app => afterRead env c trace app
  | .err (.ModelNotFoundError _) =>
    ⟨.returned, trace ++ [.Ok, .Warn ("App " ++ appName ++ " does not exist.")]⟩
  | .err (.other text) => Failed trace text []

/-- The method `DeleteApp.Execute`. -/
def Execute (env : Env) (c : FlagContext) : Result :=
  match c.Args with
  | [] => ⟨.indexOutOfRange, []⟩
  | appName :: _ =>
    if c.Bool "f" = false then
      let response := env.ConfirmDelete [] "app" appName
      if response = false then
        ⟨.returned, [.ConfirmDelete "app" appName response]⟩
      else
        afterConfirm env c [.ConfirmDelete "app" appName response] appName
    else
      afterConfirm env c [] appName

/-- The calls of `ConfirmDelete` during a run: model type and name asked about. -/
def confirmCalls : List Event → List (String × String)
  | [] => []
  | .ConfirmDelete modelType modelName _ :: rest => (modelType, modelName) :: confirmCalls rest
  | _ :: rest => confirmCalls rest

/-- The names passed to `appRepo.Read` during a run. -/
def readCalls : List Event → List String
  | [] => []
  | .Read name _ :: rest => name :: readCalls rest
  | _ :: rest => readCalls rest

/-- A call of one of the two `Delete` methods. -/
inductive DeleteCall where
  | route (routeGuid : String)
  | app (appGuid : String)
deriving DecidableEq, Repr

/-- The calls of `routeRepo.Delete` and `appRepo.Delete` during a run, in order. -/
def deleteCalls : List Event → List DeleteCall
  | [] => []
  | .RouteDelete routeGuid _ :: rest => .route routeGuid :: deleteCalls rest
  | .AppDelete appGuid _ :: rest => .app appGuid :: deleteCalls rest
  | _ :: rest => deleteCalls rest

/-- The errors returned by calls of `routeRepo.Delete` during a run. -/
def routeErrors : List Event → List String
  | [] => []
  | .RouteDelete _ (some apiErr) :: rest => apiErr :: routeErrors rest
  | _ :: rest => routeErrors rest

/-- The progress message of line 74. -/
def deleting (env : Env) (appName : String) : String :=
  "Deleting app " ++ env.EntityNameColor appName ++ " in org "
    ++ env.EntityNameColor env.OrganizationName ++ " / space "
    ++ env.EntityNameColor env.SpaceName ++ " as " ++ env.EntityNameColor env.Username ++ "..."

/-- An environment for closed examples: the user answers `answer`, `Read` returns `read`, the
route with guid `badRoute` cannot be deleted, every other deletion succeeds. -/
def fixedEnv (answer : Bool) (read : ReadResult) (badRoute : String) : Env where
  ConfirmDelete := fun _ _ _ => answer
  Read := fun _ _ => read
  RouteDelete := fun _ guid => if guid = badRoute then some "route is in use" else none
  AppDelete := fun _ _ => none
  EntityNameColor := fun s => s
  OrganizationName := "org"
  SpaceName := "space"
  Username := "user"

end application

/-! ## `ListOrgs` (`cf/api/organizations/organizations.go`) -/

namespace organizations

/-- The `interface{}` value handed to the callback: an organization resource, for which the type
assertion on line 46 succeeds, or a value of another type. -/
inductive Resource (OrganizationResource : Type) where
  | OrganizationResource (orgResource : OrganizationResource)
  | other

/-- Modelled from the spec: `net.Gateway.ListPaginatedResources` is not under `src/`.  The
gateway hands the resources to the callback one by one, in order, until the callback returns
false; `s` is the state the callback closes over. -/
def ListPaginatedResources {R σ : Type} (cb : σ → R → σ × Bool) : List R → σ → σ
  | [], s => s
  | resource :: rest, s =>
    match cb s resource with
    | (s, true) => ListPaginatedResources cb rest s
    | (s, false) => s

/-- The callback of lines 45-51, with the captured slice `orgs` as its state; `ToModel` is the
method `resources.OrganizationResource.ToModel`. -/
def callback {OrganizationResource Organization : Type}
    (ToModel : OrganizationResource → Organization) (limit : Int) (orgs : List Organization)
    (resource : Resource OrganizationResource) : List Organization × Bool :=
  match resource with
  | .OrganizationResource orgResource =>
    let orgs := orgs ++ [ToModel orgResource]
    (orgs, limit = 0 || (orgs.length : Int) < limit)
  | .other => (orgs, false)

/-- The method `ListOrgs`, for a gateway that holds `resources` and returns `err`. -/
def ListOrgs {OrganizationResource Organization : Type}
    (ToModel : OrganizationResource → Organization)
    (resources : List (Resource OrganizationResource)) (err : Option String) (limit : Int) :
    List Organization × Option String :=
  let orgs := ListPaginatedResources (callback ToModel limit) resources []
  (orgs, err)

end organizations

/-! ## Lemmas on strings -/

namespace strings

theorem data_append (s t : String) : (s ++ t).data = s.data ++ t.data := rfl

theorem suffix_append_cancel {α : Type} (a b s : List α) : a ++ s <:+ b ++ s ↔ a <:+ b := by
  rw [← List.reverse_prefix, List.reverse_append, List.reverse_append,
    List.prefix_append_right_inj, List.reverse_prefix]

theorem HasSuffix_iff (s suf : String) : HasSuffix s suf = true ↔ suf.data <:+ s.data := by
  simp [HasSuffix]

theorem HasPrefix_iff (s pre : String) : HasPrefix s pre = true ↔ pre.data <+: s.data := by
  simp [HasPrefix]

end strings

/-! ## `verifyUrl` -/

namespace pluginrepo

open models

theorem verifyUrl_of_accepted (u : String)
    (h : strings.HasPrefix u "http://" = true ∨ strings.HasPrefix u "https://" = true) :
    verifyUrl u = if strings.HasSuffix u "/" = true then .ok (u ++ "list") else .ok (u ++ "/list") := by
  unfold verifyUrl
  rcases h with h | h <;> simp [h]

theorem verifyUrl_of_rejected (u : String) (h1 : strings.HasPrefix u "http://" = false)
    (h2 : strings.HasPrefix u "https://" = false) :
    verifyUrl u = .failed (notValidUrl u) := by
  simp [verifyUrl, h1, h2, notValidUrl]

/-- C5: for every URL `u` that begins with `http://` or `https://`, `verifyUrl u` is `u ++ "list"`
when `u` ends with `/` and `u ++ "/list"` otherwise; `http://x.example` and `http://x.example/`
both yield `http://x.example/list`. -/
theorem verifyUrl_appends_list (u : String)
    (h : strings.HasPrefix u "http://" = true ∨ strings.HasPrefix u "https://" = true) :
    (strings.HasSuffix u "/" = true → verifyUrl u = .ok (u ++ "list")) ∧
    (strings.HasSuffix u "/" = false → verifyUrl u = .ok (u ++ "/list")) ∧
    verifyUrl "http://x.example" = .ok "http://x.example/list" ∧
    verifyUrl "http://x.example/" = .ok "http://x.example/list" := by
  refine ⟨fun hs => ?_, fun hs => ?_, by decide, by decide⟩
  · rw [verifyUrl_of_accepted u h, if_pos hs]
  · rw [verifyUrl_of_accepted u h, if_neg (by simp [hs])]

theorem verifyUrl_appends_list_witness :
    (strings.HasSuffix "https://plugins.example/repo" "/" = true →
      verifyUrl "https://plugins.example/repo" = .ok ("https://plugins.example/repo" ++ "list")) ∧
    (strings.HasSuffix "https://plugins.example/repo" "/" = false →
      verifyUrl "https://plugins.example/repo" = .ok ("https://plugins.example/repo" ++ "/list")) ∧
    verifyUrl "http://x.example" = .ok "http://x.example/list" ∧
    verifyUrl "http://x.example/" = .ok "http://x.example/list" :=
  verifyUrl_appends_list "https://plugins.example/repo" (Or.inr (by decide))

/-- C6, as stated, fails: the accepted base `http://x.example//` (two trailing slashes) yields
`http://x.example//list`, which ends with `//list`; so does the accepted base `http://`. -/
theorem verifyUrl_double_slash :
    strings.HasPrefix "http://x.example//" "http://" = true ∧
    verifyUrl "http://x.example//" = .ok "http://x.example//list" ∧
    strings.HasSuffix "http://x.example//list" "//list" = true ∧
    verifyUrl "http://" = .ok "http://list" ∧
    strings.HasSuffix "http://list" "//list" = true := by
  decide

/-- C6, amended: for every accepted base URL `u` the index URL produced by `verifyUrl` ends with
`/list`, and it ends with `//list` exactly when `u` itself ends with `//`. -/
theorem verifyUrl_one_slash (u : String)
    (h : strings.HasPrefix u "http://" = true ∨ strings.HasPrefix u "https://" = true) :
    ∃ r, verifyUrl u = .ok r ∧ strings.HasSuffix r "/list" = true ∧
      (strings.HasSuffix r "//list" = true ↔ strings.HasSuffix u "//" = true) := by
  rw [verifyUrl_of_accepted u h]
  by_cases hs : strings.HasSuffix u "/" = true
  · refine ⟨u ++ "list", by rw [if_pos hs], ?_, ?_⟩
    · rw [strings.HasSuffix_iff] at hs ⊢
      rw [strings.data_append]
      exact (strings.suffix_append_cancel ['/'] u.data "list".data).2 hs
    · rw [strings.HasSuffix_iff, strings.HasSuffix_iff, strings.data_append]
      exact strings.suffix_append_cancel ['/', '/'] u.data "list".data
  · refine ⟨u ++ "/list", by rw [if_neg hs], ?_, ?_⟩
    · rw [strings.HasSuffix_iff, strings.data_append]
      exact List.suffix_append _ _
    · rw [strings.HasSuffix_iff] at hs
      rw [strings.HasSuffix_iff, strings.HasSuffix_iff, strings.data_append]
      have e : u.data ++ "/list".data = (u.data ++ ['/']) ++ "list".data := by simp
      rw [e]
      constructor
      · intro h2
        have h3 := (strings.suffix_append_cancel ['/', '/'] (u.data ++ ['/']) "list".data).1 h2
        have h4 : ['/'] ++ ['/'] <:+ u.data ++ ['/'] := h3
        exact absurd ((strings.suffix_append_cancel ['/'] u.data ['/']).1 h4) hs
      · intro h2
        obtain ⟨t, ht⟩ := h2
        exact absurd ⟨t ++ ['/'], by rw [← ht]; simp⟩ hs

theorem verifyUrl_one_slash_witness :
    ∃ r, verifyUrl "http://x.example/" = .ok r ∧ strings.HasSuffix r "/list" = true ∧
      (strings.HasSuffix r "//list" = true ↔ strings.HasSuffix "http://x.example/" "//" = true) :=
  verifyUrl_one_slash "http://x.example/" (Or.inl (by decide))

end pluginrepo

/-! ## `NewPluginInstaller` -/

namespace plugininstaller

/-- C10: `NewPluginInstaller` selects the strategy by the repository name alone: the result is a
`PluginInstallerWithoutRepo` if and only if `context.RepoName` is empty, and otherwise a
`PluginInstallerWithRepo` carrying the context's `RepoName`, `Checksummer`, `PluginRepo` and
`GetPluginRepos`; in both cases its `PluginDownloader` is built from the context's `Ui` and
`FileDownloader`. -/
theorem NewPluginInstaller_selects {S D R U : Type} (context : PluginInstallerContext S D R U) :
    ((NewPluginInstaller context).isWithoutRepo = true ↔ context.RepoName = "") ∧
    (context.RepoName = "" → ∃ i, NewPluginInstaller context = .WithoutRepo i) ∧
    (context.RepoName ≠ "" → ∃ i, NewPluginInstaller context = .WithRepo i ∧
      i.RepoName = context.RepoName ∧ i.Checksummer = context.Checksummer ∧
      i.PluginRepo = context.PluginRepo ∧ i.GetPluginRepos = context.GetPluginRepos) ∧
    (NewPluginInstaller context).downloader = ⟨context.Ui, context.FileDownloader⟩ := by
  by_cases h : context.RepoName = ""
  · simp [NewPluginInstaller, h, PluginInstaller.isWithoutRepo, PluginInstaller.downloader]
  · simp [NewPluginInstaller, h, PluginInstaller.isWithoutRepo, PluginInstaller.downloader]

end plugininstaller

/-! ## The paths through `Execute` -/

namespace pluginrepo

open models

theorem checkIfRepoExists_some (lower : Char → Char) (repos : List PluginRepo)
    (repoName repoUrl message : String)
    (h : checkIfRepoExists lower repos repoName repoUrl = some message) :
    (message = nameExists repoName ∧
      ∃ repo ∈ repos, strings.ToLower lower repo.Name = strings.ToLower lower repoName) ∨
    (∃ repo ∈ repos, repo.Url = repoUrl ∧ message = urlExists repo) := by
  induction repos with
  | nil => simp [checkIfRepoExists] at h
  | cons repo rest ih =>
    unfold checkIfRepoExists at h
    by_cases hn : strings.ToLower lower repo.Name = strings.ToLower lower repoName
    · rw [if_pos hn] at h
      exact Or.inl ⟨(Option.some.inj h).symm, repo, List.mem_cons_self _ _, hn⟩
    · rw [if_neg hn] at h
      by_cases hu : repo.Url = repoUrl
      · rw [if_pos hu] at h
        exact Or.inr ⟨repo, List.mem_cons_self _ _, hu, (Option.some.inj h).symm⟩
      · rw [if_neg hu] at h
        rcases ih h with ⟨hm, r, hr, hrn⟩ | ⟨r, hr, hru, hm⟩
        · exact Or.inl ⟨hm, r, List.mem_cons_of_mem _ hr, hrn⟩
        · exact Or.inr ⟨r, List.mem_cons_of_mem _ hr, hru, hm⟩

theorem checkIfRepoExists_none (lower : Char → Char) (repos : List PluginRepo)
    (repoName repoUrl : String) (h : checkIfRepoExists lower repos repoName repoUrl = none) :
    ∀ repo ∈ repos, strings.ToLower lower repo.Name ≠ strings.ToLower lower repoName ∧
      repo.Url ≠ repoUrl := by
  induction repos with
  | nil => intro repo hr; cases hr
  | cons r rest ih =>
    unfold checkIfRepoExists at h
    by_cases hn : strings.ToLower lower r.Name = strings.ToLower lower repoName
    · rw [if_pos hn] at h; cases h
    · rw [if_neg hn] at h
      by_cases hu : r.Url = repoUrl
      · rw [if_pos hu] at h; cases h
      · rw [if_neg hu] at h
        intro repo hr
        rcases List.mem_cons.1 hr with rfl | hr
        · exact ⟨hn, hu⟩
        · exact ih h repo hr

theorem checkIfRepoExists_isSome (lower : Char → Char) (repos : List PluginRepo)
    (repoName repoUrl : String)
    (h : ∃ repo ∈ repos, strings.ToLower lower repo.Name = strings.ToLower lower repoName ∨
      repo.Url = repoUrl) :
    ∃ message, checkIfRepoExists lower repos repoName repoUrl = some message := by
  cases hc : checkIfRepoExists lower repos repoName repoUrl with
  | some message => exact ⟨message, rfl⟩
  | none =>
    obtain ⟨repo, hr, hm⟩ := h
    have := checkIfRepoExists_none lower repos repoName repoUrl hc repo hr
    rcases hm with hm | hm
    · exact absurd hm this.1
    · exact absurd hm this.2

theorem Execute_duplicate {Plugin : Type} (env : Env Plugin) (repos : List PluginRepo)
    (arg0 arg1 : String) (rest : List String) (message : String)
    (h : checkIfRepoExists env.lower repos (strings.Trim arg0 " ")
      (strings.ToLower env.lower arg1) = some message) :
    Execute env repos (arg0 :: arg1 :: rest) = Failed repos [.Say ""] message [] := by
  simp only [Execute, h]

theorem Execute_notValid {Plugin : Type} (env : Env Plugin) (repos : List PluginRepo)
    (arg0 arg1 : String) (rest : List String) (message : String)
    (h : checkIfRepoExists env.lower repos (strings.Trim arg0 " ")
      (strings.ToLower env.lower arg1) = none)
    (hv : verifyUrl (strings.ToLower env.lower arg1) = .failed message) :
    Execute env repos (arg0 :: arg1 :: rest) = Failed repos [.Say ""] message [] := by
  simp only [Execute, h, hv]

theorem Execute_requestError {Plugin : Type} (env : Env Plugin) (repos : List PluginRepo)
    (arg0 arg1 : String) (rest : List String) (u : String) (err : RequestError)
    (h : checkIfRepoExists env.lower repos (strings.Trim arg0 " ")
      (strings.ToLower env.lower arg1) = none)
    (hv : verifyUrl (strings.ToLower env.lower arg1) = .ok u) (hg : env.Get u = .err err) :
    Execute env repos (arg0 :: arg1 :: rest) =
      if (err.isUrlError && err.isOpError && decide (err.Op = "dial")) = true then
        Failed repos [.Say "", .Get u]
          ("There is an error performing request on '" ++ u ++ "': " ++ err.Error ++ "\n" ++ tip) []
      else
        Failed repos [.Say "", .Get u]
          ("There is an error performing request on '" ++ u ++ "': ") [err.Error] := by
  simp only [Execute, h, hv, hg, List.cons_append, List.nil_append]

theorem Execute_response {Plugin : Type} (env : Env Plugin) (repos : List PluginRepo)
    (arg0 arg1 : String) (rest : List String) (u : String) (resp : Response)
    (h : checkIfRepoExists env.lower repos (strings.Trim arg0 " ")
      (strings.ToLower env.lower arg1) = none)
    (hv : verifyUrl (strings.ToLower env.lower arg1) = .ok u) (hg : env.Get u = .resp resp) :
    Execute env repos (arg0 :: arg1 :: rest) =
      { afterGet env repos [.Say "", .Get u] arg0 arg1 u resp with
        trace := (afterGet env repos [.Say "", .Get u] arg0 arg1 u resp).trace ++ [.Close] } := by
  simp only [Execute, h, hv, hg, List.cons_append, List.nil_append]

end pluginrepo

namespace pluginrepo

open models

theorem afterGet_requests {Plugin : Type} (env : Env Plugin) (repos : List PluginRepo)
    (trace : List Event) (arg0 arg1 u : String) (resp : Response) (v : String) :
    Event.Get v ∈ (afterGet env repos trace arg0 arg1 u resp).trace ↔ Event.Get v ∈ trace := by
  unfold afterGet
  split
  · simp [Failed]
  · split
    · simp [Failed]
    · split
      · simp [Failed]
      · split <;> simp [Failed]

theorem Execute_fetch_inv {Plugin : Type} (env : Env Plugin) (repos : List PluginRepo)
    (args : List String) (u : String) (h : Event.Get u ∈ (Execute env repos args).trace) :
    ∃ arg0 arg1 rest, args = arg0 :: arg1 :: rest ∧
      checkIfRepoExists env.lower repos (strings.Trim arg0 " ")
        (strings.ToLower env.lower arg1) = none ∧
      verifyUrl (strings.ToLower env.lower arg1) = .ok u := by
  match args with
  | [] => simp [Execute] at h
  | [_] => simp [Execute] at h
  | arg0 :: arg1 :: rest =>
    refine ⟨arg0, arg1, rest, rfl, ?_⟩
    cases hc : checkIfRepoExists env.lower repos (strings.Trim arg0 " ")
        (strings.ToLower env.lower arg1) with
    | some message =>
      rw [Execute_duplicate env repos arg0 arg1 rest message hc] at h
      simp [Failed] at h
    | none =>
      refine ⟨rfl, ?_⟩
      cases hv : verifyUrl (strings.ToLower env.lower arg1) with
      | failed message =>
        rw [Execute_notValid env repos arg0 arg1 rest message hc hv] at h
        simp [Failed] at h
      | ok w =>
        cases hg : env.Get w with
        | err e =>
          rw [Execute_requestError env repos arg0 arg1 rest w e hc hv hg] at h
          split at h <;> simp [Failed] at h <;> rw [h]
        | resp r =>
          rw [Execute_response env repos arg0 arg1 rest w r hc hv hg] at h
          simp only [List.mem_append, afterGet_requests] at h
          simp at h
          rw [h]

end pluginrepo

/-! ## Properties of `add-plugin-repo` -/

namespace pluginrepo

open models

/-- C1: `Execute` calls `SetPluginRepo` only when the duplicate check and the URL check passed, the
HTTP GET of the index returned no error, the status was not 404, the body was read and decoded,
and the decoded `Plugins` field is non-nil, and then exactly once; on every other path
`SetPluginRepo` is not called and the configured repository list is unchanged. -/
theorem Execute_persists_only_valid_index {Plugin : Type} (env : Env Plugin)
    (repos : List PluginRepo) (args : List String) :
    (setCalls (Execute env repos args).trace = [] ∧ (Execute env repos args).repos = repos) ∨
    (∃ arg0 arg1 rest u resp body result plugins,
      args = arg0 :: arg1 :: rest ∧
      checkIfRepoExists env.lower repos (strings.Trim arg0 " ")
        (strings.ToLower env.lower arg1) = none ∧
      verifyUrl (strings.ToLower env.lower arg1) = .ok u ∧
      env.Get u = .resp resp ∧ resp.StatusCode ≠ 404 ∧ resp.Body = .ok body ∧
      env.Unmarshal body = .ok result ∧ result.Plugins = some plugins ∧
      setCalls (Execute env repos args).trace = [⟨arg0, arg1⟩] ∧
      (Execute env repos args).repos = SetPluginRepo repos ⟨arg0, arg1⟩) := by
  match args with
  | [] => exact Or.inl (by simp [Execute, setCalls])
  | [_] => exact Or.inl (by simp [Execute, setCalls])
  | arg0 :: arg1 :: rest =>
    cases hc : checkIfRepoExists env.lower repos (strings.Trim arg0 " ")
        (strings.ToLower env.lower arg1) with
    | some message =>
      rw [Execute_duplicate env repos arg0 arg1 rest message hc]
      exact Or.inl (by simp [Failed, setCalls])
    | none =>
      cases hv : verifyUrl (strings.ToLower env.lower arg1) with
      | failed message =>
        rw [Execute_notValid env repos arg0 arg1 rest message hc hv]
        exact Or.inl (by simp [Failed, setCalls])
      | ok u =>
        cases hg : env.Get u with
        | err e =>
          rw [Execute_requestError env repos arg0 arg1 rest u e hc hv hg]
          exact Or.inl (by split <;> simp [Failed, setCalls])
        | resp r =>
          rw [Execute_response env repos arg0 arg1 rest u r hc hv hg]
          by_cases hs : r.StatusCode = 404
          · exact Or.inl (by simp [afterGet, hs, Failed, setCalls])
          · cases hb : r.Body with
            | err e => exact Or.inl (by simp [afterGet, hs, hb, Failed, setCalls])
            | ok body =>
              cases hd : env.Unmarshal body with
              | err e => exact Or.inl (by simp [afterGet, hs, hb, hd, Failed, setCalls])
              | ok result =>
                cases hp : result.Plugins with
                | none => exact Or.inl (by simp [afterGet, hs, hb, hd, hp, Failed, setCalls])
                | some plugins =>
                  refine Or.inr ⟨arg0, arg1, rest, u, r, body, result, plugins, rfl, hc, hv,
                    hg, hs, hb, hd, hp, ?_, ?_⟩
                  · simp [afterGet, hs, hb, hd, hp, setCalls]
                  · simp [afterGet, hs, hb, hd, hp]

end pluginrepo

namespace pluginrepo

open models

theorem Contains_append_right (s t sub : String) (h : Contains t sub) :
    Contains (s ++ t) sub := by
  obtain ⟨a, b, hab⟩ := h
  exact ⟨s.data ++ a, b, by rw [strings.data_append, ← hab]; simp⟩

theorem Contains_nameExists (repoName : String) :
    Contains (nameExists repoName) "already exists" := by
  unfold nameExists
  rw [String.append_assoc]
  refine Contains_append_right _ _ _ (Contains_append_right _ _ _ ?_)
  exact ⟨"\" ".data, ", please use another name.".data, by decide⟩

theorem Contains_urlExists (repo : PluginRepo) :
    Contains (urlExists repo) "already exists" := by
  unfold urlExists
  refine Contains_append_right _ _ _ ?_
  exact ⟨") ".data, ".".data, by decide⟩

theorem Contains_duplicate (lower : Char → Char) (repos : List PluginRepo)
    (repoName repoUrl message : String)
    (h : checkIfRepoExists lower repos repoName repoUrl = some message) :
    Contains message "already exists" := by
  rcases checkIfRepoExists_some lower repos repoName repoUrl message h with
    ⟨hm, _⟩ | ⟨repo, _, _, hm⟩
  · rw [hm]; exact Contains_nameExists repoName
  · rw [hm]; exact Contains_urlExists repo

/-- C2 (every invocation whose URL argument equals the Url of a configured repository fails as a
duplicate, without HTTP request and without `SetPluginRepo`) is broken by the code at this
input: with `http://X.com` configured under the name `a`, as a successful run with that
argument stores it, adding `b` with the same URL argument `http://X.com` is no duplicate for
`checkIfRepoExists`, which is handed the lower-cased argument `http://x.com`: the index is
requested and a second repository with the same Url is stored. -/
theorem Execute_same_url_accepted :
    (Execute (fixedEnv 200 (.ok "\x7b\"plugins\":[]\x7d") (.ok ⟨some []⟩))
      [⟨"a", "http://X.com"⟩] ["b", "http://X.com"]).outcome = .returned ∧
    requests (Execute (fixedEnv 200 (.ok "\x7b\"plugins\":[]\x7d") (.ok ⟨some []⟩))
      [⟨"a", "http://X.com"⟩] ["b", "http://X.com"]).trace = ["http://x.com/list"] ∧
    setCalls (Execute (fixedEnv 200 (.ok "\x7b\"plugins\":[]\x7d") (.ok ⟨some []⟩))
      [⟨"a", "http://X.com"⟩] ["b", "http://X.com"]).trace = [⟨"b", "http://X.com"⟩] ∧
    (Execute (fixedEnv 200 (.ok "\x7b\"plugins\":[]\x7d") (.ok ⟨some []⟩))
      [⟨"a", "http://X.com"⟩] ["b", "http://X.com"]).repos =
      [⟨"a", "http://X.com"⟩, ⟨"b", "http://X.com"⟩] := by
  decide

/-- Where duplicate detection by URL does work: for every configured repository list and every
invocation whose lower-cased URL argument equals the Url of an already-configured repository
(whatever the name argument), `Execute` fails with a duplicate error, one of the two
`already exists` messages of `checkIfRepoExists`, performs no HTTP request, does not call
`SetPluginRepo` and leaves the configured list unchanged. -/
theorem Execute_duplicate_url {Plugin : Type} (env : Env Plugin) (repos : List PluginRepo)
    (arg0 arg1 : String) (rest : List String)
    (h : ∃ repo ∈ repos, repo.Url = strings.ToLower env.lower arg1) :
    ∃ message, (Execute env repos (arg0 :: arg1 :: rest)).outcome = .failed message [] ∧
      (message = nameExists (strings.Trim arg0 " ") ∨
        ∃ repo ∈ repos, repo.Url = strings.ToLower env.lower arg1 ∧ message = urlExists repo) ∧
      Contains message "already exists" ∧
      requests (Execute env repos (arg0 :: arg1 :: rest)).trace = [] ∧
      setCalls (Execute env repos (arg0 :: arg1 :: rest)).trace = [] ∧
      (Execute env repos (arg0 :: arg1 :: rest)).repos = repos := by
  obtain ⟨repo, hr, hu⟩ := h
  obtain ⟨message, hc⟩ := checkIfRepoExists_isSome env.lower repos (strings.Trim arg0 " ")
    (strings.ToLower env.lower arg1) ⟨repo, hr, Or.inr hu⟩
  rw [Execute_duplicate env repos arg0 arg1 rest message hc]
  refine ⟨message, rfl, ?_, Contains_duplicate _ _ _ _ _ hc, by simp [Failed, requests],
    by simp [Failed, setCalls], rfl⟩
  rcases checkIfRepoExists_some _ _ _ _ _ hc with ⟨hm, _⟩ | hm
  · exact Or.inl hm
  · exact Or.inr hm

theorem Execute_duplicate_url_witness :
    ∃ message, (Execute (fixedEnv 200 (.ok "") (.ok ⟨some []⟩))
        [⟨"a", "http://x.com"⟩] ["b", "http://X.com"]).outcome = .failed message [] ∧
      (message = nameExists (strings.Trim "b" " ") ∨
        ∃ repo ∈ [(⟨"a", "http://x.com"⟩ : PluginRepo)],
          repo.Url = strings.ToLower Char.toLower "http://X.com" ∧ message = urlExists repo) ∧
      Contains message "already exists" ∧
      requests (Execute (fixedEnv 200 (.ok "") (.ok ⟨some []⟩))
        [⟨"a", "http://x.com"⟩] ["b", "http://X.com"]).trace = [] ∧
      setCalls (Execute (fixedEnv 200 (.ok "") (.ok ⟨some []⟩))
        [⟨"a", "http://x.com"⟩] ["b", "http://X.com"]).trace = [] ∧
      (Execute (fixedEnv 200 (.ok "") (.ok ⟨some []⟩))
        [⟨"a", "http://x.com"⟩] ["b", "http://X.com"]).repos = [⟨"a", "http://x.com"⟩] :=
  Execute_duplicate_url (fixedEnv 200 (.ok "") (.ok ⟨some []⟩)) [⟨"a", "http://x.com"⟩]
    "b" "http://X.com" [] ⟨⟨"a", "http://x.com"⟩, by decide, by decide⟩

end pluginrepo

namespace pluginrepo

open models

/-- C3, as stated, fails in two ways.  First run: the list holds `a` at `http://x.example` and
then `b`; adding `B` with the URL of `a` is stopped at `a`, with the URL message and not the
`please use another name` message.  Second run: a configured name with a leading space, ` b`,
equals the name argument ` b`, but the code compares it with the trimmed argument `b`: the
index is requested and a second repository named ` b` is stored. -/
theorem Execute_same_name_other_outcome :
    (Execute (fixedEnv 200 (.ok "\x7b\"plugins\":[]\x7d") (.ok ⟨some []⟩))
      [⟨"a", "http://x.example"⟩, ⟨"b", "http://y.example"⟩] ["B", "http://x.example"]).outcome
      = .failed "http://x.example (a) already exists." [] ∧
    (Execute (fixedEnv 200 (.ok "\x7b\"plugins\":[]\x7d") (.ok ⟨some []⟩))
      [⟨" b", "http://y.example"⟩] [" b", "http://z.example"]).outcome = .returned ∧
    requests (Execute (fixedEnv 200 (.ok "\x7b\"plugins\":[]\x7d") (.ok ⟨some []⟩))
      [⟨" b", "http://y.example"⟩] [" b", "http://z.example"]).trace
      = ["http://z.example/list"] ∧
    (Execute (fixedEnv 200 (.ok "\x7b\"plugins\":[]\x7d") (.ok ⟨some []⟩))
      [⟨" b", "http://y.example"⟩] [" b", "http://z.example"]).repos
      = [⟨" b", "http://y.example"⟩, ⟨" b", "http://z.example"⟩] := by
  decide

/-- C3, amended: for every configured repository list that contains a repository whose name
equals the space-trimmed name argument ignoring letter case, `Execute` fails with a duplicate
error, performs no HTTP request, does not call `SetPluginRepo` and leaves the configured list
unchanged; the error is the `already exists, please use another name` message, unless a
configured repository has the lower-cased URL argument as its Url, in which case it may be the
`already exists` message of such a repository. -/
theorem Execute_duplicate_name {Plugin : Type} (env : Env Plugin) (repos : List PluginRepo)
    (arg0 arg1 : String) (rest : List String)
    (h : ∃ repo ∈ repos,
      strings.ToLower env.lower repo.Name = strings.ToLower env.lower (strings.Trim arg0 " ")) :
    ∃ message, (Execute env repos (arg0 :: arg1 :: rest)).outcome = .failed message [] ∧
      (message = nameExists (strings.Trim arg0 " ") ∨
        ∃ repo ∈ repos, repo.Url = strings.ToLower env.lower arg1 ∧ message = urlExists repo) ∧
      ((∀ repo ∈ repos, repo.Url ≠ strings.ToLower env.lower arg1) →
        message = nameExists (strings.Trim arg0 " ")) ∧
      requests (Execute env repos (arg0 :: arg1 :: rest)).trace = [] ∧
      setCalls (Execute env repos (arg0 :: arg1 :: rest)).trace = [] ∧
      (Execute env repos (arg0 :: arg1 :: rest)).repos = repos := by
  obtain ⟨repo, hr, hn⟩ := h
  obtain ⟨message, hc⟩ := checkIfRepoExists_isSome env.lower repos (strings.Trim arg0 " ")
    (strings.ToLower env.lower arg1) ⟨repo, hr, Or.inl hn⟩
  rw [Execute_duplicate env repos arg0 arg1 rest message hc]
  have hm := checkIfRepoExists_some _ _ _ _ _ hc
  refine ⟨message, rfl, ?_, ?_, by simp [Failed, requests], by simp [Failed, setCalls], rfl⟩
  · rcases hm with ⟨hm, _⟩ | hm
    · exact Or.inl hm
    · exact Or.inr hm
  · intro hno
    rcases hm with ⟨hm, _⟩ | ⟨r, hr2, hu, _⟩
    · exact hm
    · exact absurd hu (hno r hr2)

theorem Execute_duplicate_name_witness :
    ∃ message, (Execute (fixedEnv 200 (.ok "") (.ok ⟨some []⟩))
        [⟨"Priv", "http://x.example"⟩] [" pRIV ", "http://y.example"]).outcome
        = .failed message [] ∧
      (message = nameExists (strings.Trim " pRIV " " ") ∨
        ∃ repo ∈ [(⟨"Priv", "http://x.example"⟩ : PluginRepo)],
          repo.Url = strings.ToLower Char.toLower "http://y.example" ∧
            message = urlExists repo) ∧
      ((∀ repo ∈ [(⟨"Priv", "http://x.example"⟩ : PluginRepo)],
          repo.Url ≠ strings.ToLower Char.toLower "http://y.example") →
        message = nameExists (strings.Trim " pRIV " " ")) ∧
      requests (Execute (fixedEnv 200 (.ok "") (.ok ⟨some []⟩))
        [⟨"Priv", "http://x.example"⟩] [" pRIV ", "http://y.example"]).trace = [] ∧
      setCalls (Execute (fixedEnv 200 (.ok "") (.ok ⟨some []⟩))
        [⟨"Priv", "http://x.example"⟩] [" pRIV ", "http://y.example"]).trace = [] ∧
      (Execute (fixedEnv 200 (.ok "") (.ok ⟨some []⟩))
        [⟨"Priv", "http://x.example"⟩] [" pRIV ", "http://y.example"]).repos
        = [⟨"Priv", "http://x.example"⟩] :=
  Execute_duplicate_name (fixedEnv 200 (.ok "") (.ok ⟨some []⟩)) [⟨"Priv", "http://x.example"⟩]
    " pRIV " "http://y.example" [] ⟨⟨"Priv", "http://x.example"⟩, by decide, by decide⟩

/-- C4, as stated, fails in two ways.  First run: the URL argument `HTTP://x.example` begins
with neither `http://` nor `https://`, but the code tests the lower-cased argument: the index is
requested and the repository stored.  Second run: with `priv` already configured, the argument
`ftp://x.example` is rejected by the duplicate check, which runs first, with the name message
and not with the `is not a valid url` message. -/
theorem Execute_unprefixed_url_other_outcome :
    strings.HasPrefix "HTTP://x.example" "http://" = false ∧
    strings.HasPrefix "HTTP://x.example" "https://" = false ∧
    (Execute (fixedEnv 200 (.ok "\x7b\"plugins\":[]\x7d") (.ok ⟨some []⟩))
      [] ["priv", "HTTP://x.example"]).outcome = .returned ∧
    requests (Execute (fixedEnv 200 (.ok "\x7b\"plugins\":[]\x7d") (.ok ⟨some []⟩))
      [] ["priv", "HTTP://x.example"]).trace = ["http://x.example/list"] ∧
    (Execute (fixedEnv 200 (.ok "\x7b\"plugins\":[]\x7d") (.ok ⟨some []⟩))
      [] ["priv", "HTTP://x.example"]).repos = [⟨"priv", "HTTP://x.example"⟩] ∧
    (Execute (fixedEnv 200 (.ok "\x7b\"plugins\":[]\x7d") (.ok ⟨some []⟩))
      [⟨"priv", "http://r.example"⟩] ["priv", "ftp://x.example"]).outcome
      = .failed "Plugin repo named \"priv\" already exists, please use another name." [] := by
  decide

/-- C4, amended: for every URL argument whose lower-cased form begins with neither `http://` nor
`https://`, no HTTP request is issued, `SetPluginRepo` is not called and the configured list is
unchanged; the command is rejected with the `is not a valid url` message for the lower-cased
argument when the duplicate check, which runs first, finds nothing, and with that check's
`already exists` message otherwise. -/
theorem Execute_rejects_unprefixed_url {Plugin : Type} (env : Env Plugin)
    (repos : List PluginRepo) (arg0 arg1 : String) (rest : List String)
    (h1 : strings.HasPrefix (strings.ToLower env.lower arg1) "http://" = false)
    (h2 : strings.HasPrefix (strings.ToLower env.lower arg1) "https://" = false) :
    requests (Execute env repos (arg0 :: arg1 :: rest)).trace = [] ∧
    setCalls (Execute env repos (arg0 :: arg1 :: rest)).trace = [] ∧
    (Execute env repos (arg0 :: arg1 :: rest)).repos = repos ∧
    ((checkIfRepoExists env.lower repos (strings.Trim arg0 " ")
        (strings.ToLower env.lower arg1) = none ∧
      (Execute env repos (arg0 :: arg1 :: rest)).outcome =
        .failed (strings.ToLower env.lower arg1 ++
          " is not a valid url, please provide a url, e.g. http://your_repo.com") []) ∨
     (∃ message, checkIfRepoExists env.lower repos (strings.Trim arg0 " ")
        (strings.ToLower env.lower arg1) = some message ∧
      Contains message "already exists" ∧
      (Execute env repos (arg0 :: arg1 :: rest)).outcome = .failed message [])) := by
  cases hc : checkIfRepoExists env.lower repos (strings.Trim arg0 " ")
      (strings.ToLower env.lower arg1) with
  | some message =>
    rw [Execute_duplicate env repos arg0 arg1 rest message hc]
    exact ⟨by simp [Failed, requests], by simp [Failed, setCalls], rfl,
      Or.inr ⟨message, rfl, Contains_duplicate _ _ _ _ _ hc, rfl⟩⟩
  | none =>
    rw [Execute_notValid env repos arg0 arg1 rest _ hc (verifyUrl_of_rejected _ h1 h2)]
    exact ⟨by simp [Failed, requests], by simp [Failed, setCalls], rfl, Or.inl ⟨rfl, rfl⟩⟩

theorem Execute_rejects_unprefixed_url_witness :
    requests (Execute (fixedEnv 200 (.ok "") (.ok ⟨some []⟩)) [] ["priv", "ftp://x.example"]).trace
      = [] ∧
    setCalls (Execute (fixedEnv 200 (.ok "") (.ok ⟨some []⟩)) [] ["priv", "ftp://x.example"]).trace
      = [] ∧
    (Execute (fixedEnv 200 (.ok "") (.ok ⟨some []⟩)) [] ["priv", "ftp://x.example"]).repos = [] ∧
    ((checkIfRepoExists Char.toLower [] (strings.Trim "priv" " ")
        (strings.ToLower Char.toLower "ftp://x.example") = none ∧
      (Execute (fixedEnv 200 (.ok "") (.ok ⟨some []⟩)) [] ["priv", "ftp://x.example"]).outcome =
        .failed (strings.ToLower Char.toLower "ftp://x.example" ++
          " is not a valid url, please provide a url, e.g. http://your_repo.com") []) ∨
     (∃ message, checkIfRepoExists Char.toLower [] (strings.Trim "priv" " ")
        (strings.ToLower Char.toLower "ftp://x.example") = some message ∧
      Contains message "already exists" ∧
      (Execute (fixedEnv 200 (.ok "") (.ok ⟨some []⟩)) [] ["priv", "ftp://x.example"]).outcome
        = .failed message [])) :=
  Execute_rejects_unprefixed_url (fixedEnv 200 (.ok "") (.ok ⟨some []⟩)) [] "priv"
    "ftp://x.example" [] (by decide) (by decide)

end pluginrepo

namespace pluginrepo

open models

theorem verifyUrl_ok_head (x u : String) (h : verifyUrl x = .ok u) :
    ∃ t, u.data = 'h' :: t := by
  unfold verifyUrl at h
  by_cases hp : (!strings.HasPrefix x "http://" && !strings.HasPrefix x "https://") = true
  · rw [if_pos hp] at h; cases h
  · rw [if_neg hp] at h
    have hx : ∃ t, x.data = 'h' :: t := by
      simp only [Bool.and_eq_true, Bool.not_eq_true', not_and, Bool.not_eq_false] at hp
      by_cases h1 : strings.HasPrefix x "http://" = true
      · obtain ⟨t, ht⟩ := (strings.HasPrefix_iff _ _).1 h1
        exact ⟨"ttp://".data ++ t, by rw [← ht]; rfl⟩
      · obtain ⟨t, ht⟩ := (strings.HasPrefix_iff _ _).1 (hp (by simpa using h1))
        exact ⟨"ttps://".data ++ t, by rw [← ht]; rfl⟩
    obtain ⟨t, ht⟩ := hx
    split at h
    · cases h; exact ⟨t ++ "list".data, by rw [strings.data_append, ht]; rfl⟩
    · cases h; exact ⟨t ++ "/list".data, by rw [strings.data_append, ht]; rfl⟩

theorem not_HasPrefix_of_head (s pre : String) (a b : Char) (t r : List Char)
    (hs : s.data = a :: t) (hp : pre.data = b :: r) (hab : a ≠ b) :
    strings.HasPrefix s pre = false := by
  cases hh : strings.HasPrefix s pre with
  | false => rfl
  | true =>
    obtain ⟨w, hw⟩ := (strings.HasPrefix_iff _ _).1 hh
    rw [hs, hp] at hw
    exact absurd (List.cons.inj hw).1.symm hab

/-- C7: for every index fetch of `add-plugin-repo` whose HTTP response has status 404, whatever
its body, the command fails with the message `<index URL> is not responding. Please make sure it
is a valid plugin repo.`, which never begins like the network-error message `There is an error
performing request on ...`; nothing is stored. -/
theorem Execute_status_404 {Plugin : Type} (env : Env Plugin) (repos : List PluginRepo)
    (args : List String) (u : String) (resp : Response)
    (hf : Event.Get u ∈ (Execute env repos args).trace)
    (hg : env.Get u = .resp resp) (hs : resp.StatusCode = 404) :
    (Execute env repos args).outcome =
      .failed (u ++ " is not responding. Please make sure it is a valid plugin repo.") [] ∧
    strings.HasPrefix (u ++ " is not responding. Please make sure it is a valid plugin repo.")
      "There is an error performing request on" = false ∧
    setCalls (Execute env repos args).trace = [] ∧
    (Execute env repos args).repos = repos := by
  obtain ⟨arg0, arg1, rest, rfl, hc, hv⟩ := Execute_fetch_inv env repos args u hf
  rw [Execute_response env repos arg0 arg1 rest u resp hc hv hg]
  refine ⟨by simp [afterGet, hs, Failed], ?_, by simp [afterGet, hs, Failed, setCalls],
    by simp [afterGet, hs, Failed]⟩
  obtain ⟨t, ht⟩ := verifyUrl_ok_head _ _ hv
  exact not_HasPrefix_of_head _ _ 'h' 'T' (t ++ _) "here is an error performing request on".data
    (by rw [strings.data_append, ht]; rfl) rfl (by decide)

theorem Execute_status_404_witness :
    (Execute (fixedEnv 404 (.ok "not found") (.err "invalid character"))
      [] ["priv", "http://x.example"]).outcome =
      .failed ("http://x.example/list" ++
        " is not responding. Please make sure it is a valid plugin repo.") [] ∧
    strings.HasPrefix ("http://x.example/list" ++
      " is not responding. Please make sure it is a valid plugin repo.")
      "There is an error performing request on" = false ∧
    setCalls (Execute (fixedEnv 404 (.ok "not found") (.err "invalid character"))
      [] ["priv", "http://x.example"]).trace = [] ∧
    (Execute (fixedEnv 404 (.ok "not found") (.err "invalid character"))
      [] ["priv", "http://x.example"]).repos = [] :=
  Execute_status_404 (fixedEnv 404 (.ok "not found") (.err "invalid character")) []
    ["priv", "http://x.example"] "http://x.example/list" ⟨404, .ok "not found"⟩
    (by decide) rfl rfl

end pluginrepo

namespace pluginrepo

open models

theorem pluginsNotFound_ne_decodeError (e : String) :
    "\"Plugins\" object not found in the responded data." ≠
      "Error processing data from server: " ++ e := by
  intro h
  have hd := congrArg String.data h
  rw [strings.data_append] at hd
  have h1 : "\"Plugins\" object not found in the responded data.".data =
      '"' :: "Plugins\" object not found in the responded data.".data := rfl
  have h2 : "Error processing data from server: ".data ++ e.data =
      'E' :: ("rror processing data from server: ".data ++ e.data) := rfl
  rw [h1, h2] at hd
  exact absurd (List.cons.inj hd).1 (by decide)

/-- C8, as stated, fails, because the command does not look at the body but at what
`json.Unmarshal` makes of it.  First run: the body `[]` is JSON without a `plugins` key, but it
is not an object; `json.Unmarshal` returns a type error for it and the command fails with the
decode error, not with the `"Plugins" object not found` message.  Second run: the body
`{"PLUGINS":[]}` has no `plugins` key, but `json.Unmarshal` matches keys to the field ignoring
letter case and fills `Plugins` with an empty, non-nil slice; the command returns normally and
the repository is stored.  In both runs the decoder of the environment answers as
`encoding/json` does for that body. -/
theorem Execute_body_without_plugins_key :
    (Execute (fixedEnv 200 (.ok "[]")
        (.err "json: cannot unmarshal array into Go value of type models.PluginsJson"))
      [] ["priv", "http://x.example"]).outcome =
      .failed ("Error processing data from server: " ++
        "json: cannot unmarshal array into Go value of type models.PluginsJson") [] ∧
    (Execute (fixedEnv 200 (.ok "\x7b\"PLUGINS\":[]\x7d") (.ok ⟨some []⟩))
      [] ["priv", "http://x.example"]).outcome = .returned ∧
    setCalls (Execute (fixedEnv 200 (.ok "\x7b\"PLUGINS\":[]\x7d") (.ok ⟨some []⟩))
      [] ["priv", "http://x.example"]).trace = [⟨"priv", "http://x.example"⟩] ∧
    (Execute (fixedEnv 200 (.ok "\x7b\"PLUGINS\":[]\x7d") (.ok ⟨some []⟩))
      [] ["priv", "http://x.example"]).repos = [⟨"priv", "http://x.example"⟩] := by
  decide

/-- C8, amended: for every index response with status 200 whose body `json.Unmarshal` decodes
without error while leaving `Plugins` nil (for instance a JSON object with no `plugins` key in
any letter case), the command fails with the message `"Plugins" object not found in the
responded data.`, nothing is stored and the configured list is unchanged; a body that
`json.Unmarshal` rejects, which includes JSON that is not an object, fails with
`Error processing data from server: ...` instead, and the two messages are never equal. -/
theorem Execute_missing_plugins {Plugin : Type} (env : Env Plugin) (repos : List PluginRepo)
    (args : List String) (u : String) (resp : Response) (body : String)
    (hf : Event.Get u ∈ (Execute env repos args).trace)
    (hg : env.Get u = .resp resp) (hs : resp.StatusCode = 200) (hb : resp.Body = .ok body) :
    (∀ result, env.Unmarshal body = .ok result → result.Plugins = none →
      (Execute env repos args).outcome =
        .failed "\"Plugins\" object not found in the responded data." [] ∧
      setCalls (Execute env repos args).trace = [] ∧
      (Execute env repos args).repos = repos) ∧
    (∀ e, env.Unmarshal body = .err e →
      (Execute env repos args).outcome =
        .failed ("Error processing data from server: " ++ e) [] ∧
      setCalls (Execute env repos args).trace = [] ∧
      (Execute env repos args).repos = repos) ∧
    (∀ e, "\"Plugins\" object not found in the responded data." ≠
      "Error processing data from server: " ++ e) := by
  obtain ⟨arg0, arg1, rest, rfl, hc, hv⟩ := Execute_fetch_inv env repos args u hf
  rw [Execute_response env repos arg0 arg1 rest u resp hc hv hg]
  refine ⟨?_, ?_, pluginsNotFound_ne_decodeError⟩
  · intro result hd hp
    simp [afterGet, hs, hb, hd, hp, Failed, setCalls]
  · intro e hd
    simp [afterGet, hs, hb, hd, Failed, setCalls]

theorem Execute_missing_plugins_witness :
    (∀ result, (fixedEnv 200 (.ok "\x7b\"name\":1\x7d") (.ok ⟨none⟩)).Unmarshal
        "\x7b\"name\":1\x7d" = .ok result → result.Plugins = none →
      (Execute (fixedEnv 200 (.ok "\x7b\"name\":1\x7d") (.ok ⟨none⟩))
        [] ["priv", "http://x.example"]).outcome =
        .failed "\"Plugins\" object not found in the responded data." [] ∧
      setCalls (Execute (fixedEnv 200 (.ok "\x7b\"name\":1\x7d") (.ok ⟨none⟩))
        [] ["priv", "http://x.example"]).trace = [] ∧
      (Execute (fixedEnv 200 (.ok "\x7b\"name\":1\x7d") (.ok ⟨none⟩))
        [] ["priv", "http://x.example"]).repos = []) ∧
    (∀ e, (fixedEnv 200 (.ok "\x7b\"name\":1\x7d") (.ok ⟨none⟩)).Unmarshal
        "\x7b\"name\":1\x7d" = .err e →
      (Execute (fixedEnv 200 (.ok "\x7b\"name\":1\x7d") (.ok ⟨none⟩))
        [] ["priv", "http://x.example"]).outcome =
        .failed ("Error processing data from server: " ++ e) [] ∧
      setCalls (Execute (fixedEnv 200 (.ok "\x7b\"name\":1\x7d") (.ok ⟨none⟩))
        [] ["priv", "http://x.example"]).trace = [] ∧
      (Execute (fixedEnv 200 (.ok "\x7b\"name\":1\x7d") (.ok ⟨none⟩))
        [] ["priv", "http://x.example"]).repos = []) ∧
    (∀ e, "\"Plugins\" object not found in the responded data." ≠
      "Error processing data from server: " ++ e) :=
  Execute_missing_plugins (fixedEnv 200 (.ok "\x7b\"name\":1\x7d") (.ok ⟨none⟩)) []
    ["priv", "http://x.example"] "http://x.example/list" ⟨200, .ok "\x7b\"name\":1\x7d"⟩
    "\x7b\"name\":1\x7d" (by decide) rfl rfl rfl

/-- C9, as stated, fails: a response with status 500 whose body is a valid index is accepted; the
command returns normally and the repository is stored. -/
theorem Execute_status_500_accepted :
    (Execute (fixedEnv 500 (.ok "\x7b\"plugins\":[]\x7d") (.ok ⟨some []⟩))
      [] ["priv", "http://x.example"]).outcome = .returned ∧
    setCalls (Execute (fixedEnv 500 (.ok "\x7b\"plugins\":[]\x7d") (.ok ⟨some []⟩))
      [] ["priv", "http://x.example"]).trace = [⟨"priv", "http://x.example"⟩] ∧
    (Execute (fixedEnv 500 (.ok "\x7b\"plugins\":[]\x7d") (.ok ⟨some []⟩))
      [] ["priv", "http://x.example"]).repos = [⟨"priv", "http://x.example"⟩] := by
  decide

/-- C9, amended: for every index fetch whose HTTP response status is not 404, inside 2xx or
outside (for example 500), the status decides nothing: the command fails and stores nothing
exactly when the body cannot be read, does not decode, or decodes with `Plugins` nil; when the
body is a valid index the command returns normally and the repository is stored. -/
theorem Execute_status_not_404 {Plugin : Type} (env : Env Plugin) (repos : List PluginRepo)
    (args : List String) (u : String) (resp : Response)
    (hf : Event.Get u ∈ (Execute env repos args).trace)
    (hg : env.Get u = .resp resp) (hs : resp.StatusCode ≠ 404) :
    ∃ arg0 arg1 rest, args = arg0 :: arg1 :: rest ∧
      ((∃ body result plugins, resp.Body = .ok body ∧ env.Unmarshal body = .ok result ∧
          result.Plugins = some plugins ∧
          (Execute env repos args).outcome = .returned ∧
          setCalls (Execute env repos args).trace = [⟨arg0, arg1⟩] ∧
          (Execute env repos args).repos = SetPluginRepo repos ⟨arg0, arg1⟩) ∨
       (((∃ e, resp.Body = .err e ∧ (Execute env repos args).outcome =
            .failed ("Error reading response from server: " ++ e) []) ∨
         (∃ body e, resp.Body = .ok body ∧ env.Unmarshal body = .err e ∧
            (Execute env repos args).outcome =
              .failed ("Error processing data from server: " ++ e) []) ∨
         (∃ body result, resp.Body = .ok body ∧ env.Unmarshal body = .ok result ∧
            result.Plugins = none ∧ (Execute env repos args).outcome =
              .failed "\"Plugins\" object not found in the responded data." [])) ∧
        setCalls (Execute env repos args).trace = [] ∧
        (Execute env repos args).repos = repos)) := by
  obtain ⟨arg0, arg1, rest, rfl, hc, hv⟩ := Execute_fetch_inv env repos args u hf
  refine ⟨arg0, arg1, rest, rfl, ?_⟩
  rw [Execute_response env repos arg0 arg1 rest u resp hc hv hg]
  cases hb : resp.Body with
  | err e =>
    exact Or.inr ⟨Or.inl ⟨e, rfl, by simp [afterGet, hs, hb, Failed]⟩,
      by simp [afterGet, hs, hb, Failed, setCalls], by simp [afterGet, hs, hb, Failed]⟩
  | ok body =>
    cases hd : env.Unmarshal body with
    | err e =>
      exact Or.inr ⟨Or.inr (Or.inl ⟨body, e, rfl, hd, by simp [afterGet, hs, hb, hd, Failed]⟩),
        by simp [afterGet, hs, hb, hd, Failed, setCalls], by simp [afterGet, hs, hb, hd, Failed]⟩
    | ok result =>
      cases hp : result.Plugins with
      | none =>
        exact Or.inr ⟨Or.inr (Or.inr ⟨body, result, rfl, hd, hp,
            by simp [afterGet, hs, hb, hd, hp, Failed]⟩),
          by simp [afterGet, hs, hb, hd, hp, Failed, setCalls],
          by simp [afterGet, hs, hb, hd, hp, Failed]⟩
      | some plugins =>
        exact Or.inl ⟨body, result, plugins, rfl, hd, hp, by simp [afterGet, hs, hb, hd, hp],
          by simp [afterGet, hs, hb, hd, hp, setCalls], by simp [afterGet, hs, hb, hd, hp]⟩

theorem Execute_status_not_404_witness :
    ∃ arg0 arg1 rest, ["priv", "http://x.example"] = arg0 :: arg1 :: rest ∧
      ((∃ body result plugins, (⟨503, .err "unexpected EOF"⟩ : Response).Body = .ok body ∧
          (fixedEnv 503 (.err "unexpected EOF") (.ok ⟨some []⟩)).Unmarshal body = .ok result ∧
          result.Plugins = some plugins ∧
          (Execute (fixedEnv 503 (.err "unexpected EOF") (.ok ⟨some []⟩)) []
            ["priv", "http://x.example"]).outcome = .returned ∧
          setCalls (Execute (fixedEnv 503 (.err "unexpected EOF") (.ok ⟨some []⟩)) []
            ["priv", "http://x.example"]).trace = [⟨arg0, arg1⟩] ∧
          (Execute (fixedEnv 503 (.err "unexpected EOF") (.ok ⟨some []⟩)) []
            ["priv", "http://x.example"]).repos = SetPluginRepo [] ⟨arg0, arg1⟩) ∨
       (((∃ e, (⟨503, .err "unexpected EOF"⟩ : Response).Body = .err e ∧
            (Execute (fixedEnv 503 (.err "unexpected EOF") (.ok ⟨some []⟩)) []
              ["priv", "http://x.example"]).outcome =
            .failed ("Error reading response from server: " ++ e) []) ∨
         (∃ body e, (⟨503, .err "unexpected EOF"⟩ : Response).Body = .ok body ∧
            (fixedEnv 503 (.err "unexpected EOF") (.ok ⟨some []⟩)).Unmarshal body = .err e ∧
            (Execute (fixedEnv 503 (.err "unexpected EOF") (.ok ⟨some []⟩)) []
              ["priv", "http://x.example"]).outcome =
              .failed ("Error processing data from server: " ++ e) []) ∨
         (∃ body result, (⟨503, .err "unexpected EOF"⟩ : Response).Body = .ok body ∧
            (fixedEnv 503 (.err "unexpected EOF") (.ok ⟨some []⟩)).Unmarshal body = .ok result ∧
            result.Plugins = none ∧
            (Execute (fixedEnv 503 (.err "unexpected EOF") (.ok ⟨some []⟩)) []
              ["priv", "http://x.example"]).outcome =
              .failed "\"Plugins\" object not found in the responded data." [])) ∧
        setCalls (Execute (fixedEnv 503 (.err "unexpected EOF") (.ok ⟨some []⟩)) []
          ["priv", "http://x.example"]).trace = [] ∧
        (Execute (fixedEnv 503 (.err "unexpected EOF") (.ok ⟨some []⟩)) []
          ["priv", "http://x.example"]).repos = [])) :=
  Execute_status_not_404 (fixedEnv 503 (.err "unexpected EOF") (.ok ⟨some []⟩)) []
    ["priv", "http://x.example"] "http://x.example/list" ⟨503, .err "unexpected EOF"⟩
    (by decide) rfl (by decide)

end pluginrepo

/-! ## Request errors and the stored descriptor -/

namespace pluginrepo

open models

theorem Contains_self (s : String) : Contains s s :=
  ⟨[], [], by simp⟩

theorem Contains_append_left (s t sub : String) (h : Contains s sub) :
    Contains (s ++ t) sub := by
  obtain ⟨a, b, hab⟩ := h
  exact ⟨a, b ++ t.data, by rw [strings.data_append, ← hab]; simp⟩

/-- C11: for every failed index request of `add-plugin-repo` the command fails, stores nothing,
and the `Failed` call names the requested URL in its message and carries the original error
text, inside the message or as its argument; when the error is a `url.Error` wrapping a
`net.OpError` whose `Op` is `dial`, the message contains the error text and the proxy/firewall
TIP. -/
theorem Execute_failed_request {Plugin : Type} (env : Env Plugin) (repos : List PluginRepo)
    (args : List String) (u : String) (err : RequestError)
    (hf : Event.Get u ∈ (Execute env repos args).trace) (hg : env.Get u = .err err) :
    ∃ message fargs, (Execute env repos args).outcome = .failed message fargs ∧
      Contains message ("There is an error performing request on '" ++ u ++ "': ") ∧
      Contains message u ∧
      (Contains message err.Error ∨ err.Error ∈ fargs) ∧
      (err.isUrlError = true → err.isOpError = true → err.Op = "dial" →
        fargs = [] ∧ Contains message err.Error ∧ Contains message tip ∧
        Contains message "verify the https_proxy environment variable" ∧
        Contains message "check your network connection") ∧
      setCalls (Execute env repos args).trace = [] ∧
      (Execute env repos args).repos = repos := by
  obtain ⟨arg0, arg1, rest, rfl, hc, hv⟩ := Execute_fetch_inv env repos args u hf
  rw [Execute_requestError env repos arg0 arg1 rest u err hc hv hg]
  have hu : Contains ("There is an error performing request on '" ++ u ++ "': ") u :=
    Contains_append_left _ _ _ (Contains_append_right _ _ _ (Contains_self u))
  by_cases hd : (err.isUrlError && err.isOpError && decide (err.Op = "dial")) = true
  · rw [if_pos hd]
    refine ⟨_, _, rfl, ?_, ?_, Or.inl ?_, ?_, by simp [Failed, setCalls], rfl⟩
    · exact Contains_append_left _ _ _ (Contains_append_left _ _ _
        (Contains_append_left _ _ _ (Contains_self _)))
    · exact Contains_append_left _ _ _ (Contains_append_left _ _ _
        (Contains_append_left _ _ _ hu))
    · exact Contains_append_left _ _ _ (Contains_append_left _ _ _
        (Contains_append_right _ _ _ (Contains_self _)))
    · intro _ _ _
      refine ⟨rfl, ?_, Contains_append_right _ _ _ (Contains_self _), ?_, ?_⟩
      · exact Contains_append_left _ _ _ (Contains_append_left _ _ _
          (Contains_append_right _ _ _ (Contains_self _)))
      · refine Contains_append_right _ _ _ ?_
        exact ⟨"TIP: If you are behind a firewall and require an HTTP proxy, ".data,
          " is correctly set. Else, check your network connection.".data, by decide⟩
      · refine Contains_append_right _ _ _ ?_
        exact ⟨("TIP: If you are behind a firewall and require an HTTP proxy, verify the " ++
          "https_proxy environment variable is correctly set. Else, ").data, ".".data,
          by decide⟩
  · rw [if_neg hd]
    refine ⟨_, _, rfl, Contains_self _, hu, Or.inr (by simp), ?_, by simp [Failed, setCalls],
      rfl⟩
    intro h1 h2 h3
    exact absurd (by simp [h1, h2, h3]) hd

theorem Execute_failed_request_witness :
    ∃ message fargs,
      (Execute (⟨Char.toLower, fun _ => .err ⟨"dial tcp: no route to host", true, true, "dial"⟩,
        fun _ => .err ""⟩ : Env Unit) [] ["priv", "http://x.example"]).outcome
        = .failed message fargs ∧
      Contains message
        ("There is an error performing request on '" ++ "http://x.example/list" ++ "': ") ∧
      Contains message "http://x.example/list" ∧
      (Contains message
          (⟨"dial tcp: no route to host", true, true, "dial"⟩ : RequestError).Error ∨
        (⟨"dial tcp: no route to host", true, true, "dial"⟩ : RequestError).Error ∈ fargs) ∧
      ((⟨"dial tcp: no route to host", true, true, "dial"⟩ : RequestError).isUrlError = true →
        (⟨"dial tcp: no route to host", true, true, "dial"⟩ : RequestError).isOpError = true →
        (⟨"dial tcp: no route to host", true, true, "dial"⟩ : RequestError).Op = "dial" →
        fargs = [] ∧
        Contains message
          (⟨"dial tcp: no route to host", true, true, "dial"⟩ : RequestError).Error ∧
        Contains message tip ∧
        Contains message "verify the https_proxy environment variable" ∧
        Contains message "check your network connection") ∧
      setCalls (Execute (⟨Char.toLower,
        fun _ => .err ⟨"dial tcp: no route to host", true, true, "dial"⟩,
        fun _ => .err ""⟩ : Env Unit) [] ["priv", "http://x.example"]).trace = [] ∧
      (Execute (⟨Char.toLower, fun _ => .err ⟨"dial tcp: no route to host", true, true, "dial"⟩,
        fun _ => .err ""⟩ : Env Unit) [] ["priv", "http://x.example"]).repos = [] :=
  Execute_failed_request (⟨Char.toLower,
    fun _ => .err ⟨"dial tcp: no route to host", true, true, "dial"⟩,
    fun _ => .err ""⟩ : Env Unit) [] ["priv", "http://x.example"] "http://x.example/list"
    ⟨"dial tcp: no route to host", true, true, "dial"⟩ (by decide) rfl

end pluginrepo

namespace pluginrepo

open models

theorem map_eq_self_iff_fixed {α : Type} (f : α → α) (l : List α) :
    l.map f = l ↔ ∀ x ∈ l, f x = x := by
  induction l with
  | nil => simp
  | cons a t ih => simp [ih]

theorem ToLower_eq_self_iff (lower : Char → Char) (s : String) :
    s = strings.ToLower lower s ↔ ∀ r ∈ s.data, lower r = r := by
  rw [← map_eq_self_iff_fixed]
  cases s with
  | mk d =>
    simp only [strings.ToLower]
    constructor
    · intro h
      exact (congrArg String.data h).symm
    · intro h
      rw [h]

/-- C15: on every successful run of `add-plugin-repo` the one descriptor handed to
`SetPluginRepo`, and appended to the configured list, has `Name` equal to the first argument and
`Url` equal to the second argument exactly as typed, whereas the duplicate check that passed was
run on the space-trimmed name and the lower-cased URL and the one request went to the index URL
of the lower-cased URL; the stored Url equals the lower-cased URL, the value a later duplicate
check compares against, exactly when no rune of the typed URL is changed by lower-casing. -/
theorem Execute_stores_typed_arguments {Plugin : Type} (env : Env Plugin)
    (repos : List PluginRepo) (args : List String)
    (h : (Execute env repos args).outcome = .returned) :
    ∃ arg0 arg1 rest u, args = arg0 :: arg1 :: rest ∧
      setCalls (Execute env repos args).trace = [⟨arg0, arg1⟩] ∧
      (Execute env repos args).repos = repos ++ [⟨arg0, arg1⟩] ∧
      checkIfRepoExists env.lower repos (strings.Trim arg0 " ")
        (strings.ToLower env.lower arg1) = none ∧
      verifyUrl (strings.ToLower env.lower arg1) = .ok u ∧
      requests (Execute env repos args).trace = [u] ∧
      ((⟨arg0, arg1⟩ : PluginRepo).Url = strings.ToLower env.lower arg1 ↔
        ∀ r ∈ arg1.data, env.lower r = r) := by
  match args with
  | [] => simp [Execute] at h
  | [_] => simp [Execute] at h
  | arg0 :: arg1 :: rest =>
    cases hc : checkIfRepoExists env.lower repos (strings.Trim arg0 " ")
        (strings.ToLower env.lower arg1) with
    | some message =>
      rw [Execute_duplicate env repos arg0 arg1 rest message hc] at h
      simp [Failed] at h
    | none =>
      cases hv : verifyUrl (strings.ToLower env.lower arg1) with
      | failed message =>
        rw [Execute_notValid env repos arg0 arg1 rest message hc hv] at h
        simp [Failed] at h
      | ok u =>
        cases hg : env.Get u with
        | err e =>
          rw [Execute_requestError env repos arg0 arg1 rest u e hc hv hg] at h
          split at h <;> simp [Failed] at h
        | resp r =>
          rw [Execute_response env repos arg0 arg1 rest u r hc hv hg] at h ⊢
          refine ⟨arg0, arg1, rest, u, rfl, ?_, ?_, hc, hv, ?_,
            ToLower_eq_self_iff env.lower arg1⟩
          all_goals
            by_cases hs : r.StatusCode = 404
            · simp [afterGet, hs, Failed] at h
            · cases hb : r.Body with
              | err e => simp [afterGet, hs, hb, Failed] at h
              | ok body =>
                cases hd : env.Unmarshal body with
                | err e => simp [afterGet, hs, hb, hd, Failed] at h
                | ok result =>
                  cases hp : result.Plugins with
                  | none => simp [afterGet, hs, hb, hd, hp, Failed] at h
                  | some plugins =>
                    simp [afterGet, hs, hb, hd, hp, setCalls, requests, SetPluginRepo]

theorem Execute_stores_typed_arguments_witness :
    ∃ arg0 arg1 rest u, [" Priv ", "HTTP://X.example"] = arg0 :: arg1 :: rest ∧
      setCalls (Execute (fixedEnv 200 (.ok "\x7b\"plugins\":[]\x7d") (.ok ⟨some []⟩)) []
        [" Priv ", "HTTP://X.example"]).trace = [⟨arg0, arg1⟩] ∧
      (Execute (fixedEnv 200 (.ok "\x7b\"plugins\":[]\x7d") (.ok ⟨some []⟩)) []
        [" Priv ", "HTTP://X.example"]).repos = [] ++ [⟨arg0, arg1⟩] ∧
      checkIfRepoExists Char.toLower [] (strings.Trim arg0 " ")
        (strings.ToLower Char.toLower arg1) = none ∧
      verifyUrl (strings.ToLower Char.toLower arg1) = .ok u ∧
      requests (Execute (fixedEnv 200 (.ok "\x7b\"plugins\":[]\x7d") (.ok ⟨some []⟩)) []
        [" Priv ", "HTTP://X.example"]).trace = [u] ∧
      ((⟨arg0, arg1⟩ : PluginRepo).Url = strings.ToLower Char.toLower arg1 ↔
        ∀ r ∈ arg1.data, Char.toLower r = r) :=
  Execute_stores_typed_arguments (fixedEnv 200 (.ok "\x7b\"plugins\":[]\x7d") (.ok ⟨some []⟩)) []
    [" Priv ", "HTTP://X.example"] (by decide)

end pluginrepo

/-! ## `delete` -/

namespace application

theorem confirmCalls_append (a b : List Event) :
    confirmCalls (a ++ b) = confirmCalls a ++ confirmCalls b := by
  induction a with
  | nil => rfl
  | cons x t ih => cases x <;> simp [confirmCalls, ih]

theorem readCalls_append (a b : List Event) :
    readCalls (a ++ b) = readCalls a ++ readCalls b := by
  induction a with
  | nil => rfl
  | cons x t ih => cases x <;> simp [readCalls, ih]

theorem deleteCalls_append (a b : List Event) :
    deleteCalls (a ++ b) = deleteCalls a ++ deleteCalls b := by
  induction a with
  | nil => rfl
  | cons x t ih => cases x <;> simp [deleteCalls, ih]

theorem routeErrors_append (a b : List Event) :
    routeErrors (a ++ b) = routeErrors a ++ routeErrors b := by
  induction a with
  | nil => rfl
  | cons x t ih =>
    cases x with
    | RouteDelete g e => cases e <;> simp [routeErrors, ih]
    | _ => simp [routeErrors, ih]

theorem mem_readCalls (name : String) (result : ReadResult) (l : List Event)
    (h : Event.Read name result ∈ l) : name ∈ readCalls l := by
  induction l with
  | nil => cases h
  | cons x t ih =>
    rcases List.mem_cons.1 h with rfl | h2
    · simp [readCalls]
    · have h3 := ih h2
      cases x <;> simp [readCalls, h3]

end application

namespace application

theorem deleteRoutes_spec (env : Env) (routes : List RouteSummary) (trace : List Event) :
    ∃ ev, (deleteRoutes env trace routes).2 = trace ++ ev ∧
      confirmCalls ev = [] ∧ readCalls ev = [] ∧
      deleteCalls ev <+: routes.map (fun route => DeleteCall.route route.Guid) ∧
      ((deleteRoutes env trace routes).1 = none →
        deleteCalls ev = routes.map (fun route => DeleteCall.route route.Guid) ∧
        routeErrors ev = []) ∧
      (∀ apiErr, (deleteRoutes env trace routes).1 = some apiErr → routeErrors ev = [apiErr]) := by
  induction routes generalizing trace with
  | nil =>
    exact ⟨[], by simp [deleteRoutes], rfl, rfl, by simp [deleteCalls],
      fun _ => ⟨rfl, rfl⟩, fun apiErr h => by simp [deleteRoutes] at h⟩
  | cons route rest ih =>
    cases hd : env.RouteDelete trace route.Guid with
    | some apiErr =>
      refine ⟨[.RouteDelete route.Guid (some apiErr)], by simp [deleteRoutes, hd], rfl, rfl,
        ?_, ?_, ?_⟩
      · exact ⟨rest.map (fun route => DeleteCall.route route.Guid), by simp [deleteCalls]⟩
      · intro h; simp [deleteRoutes, hd] at h
      · intro e h
        simp only [deleteRoutes, hd, Option.some.injEq] at h
        simp [routeErrors, h]
    | none =>
      obtain ⟨ev, h1, h2, h3, h4, h5, h6⟩ := ih (trace ++ [.RouteDelete route.Guid none])
      have hstep : deleteRoutes env trace (route :: rest) =
          deleteRoutes env (trace ++ [.RouteDelete route.Guid none]) rest := by
        simp [deleteRoutes, hd]
      rw [hstep]
      refine ⟨.RouteDelete route.Guid none :: ev, by rw [h1]; simp, by simpa [confirmCalls],
        by simpa [readCalls], ?_, ?_, ?_⟩
      · simpa [deleteCalls, List.cons_prefix_cons] using h4
      · intro h
        obtain ⟨h7, h8⟩ := h5 h
        exact ⟨by simp [deleteCalls, h7], by simpa [routeErrors] using h8⟩
      · intro e h
        simpa [routeErrors] using h6 e h

theorem afterRead_spec (env : Env) (c : FlagContext) (trace : List Event) (app : Application) :
    ∃ ev, (afterRead env c trace app).trace = trace ++ ev ∧
      confirmCalls ev = [] ∧ readCalls ev = [] ∧
      (c.Bool "r" = false → deleteCalls ev = [.app app.Guid] ∧ routeErrors ev = []) ∧
      deleteCalls ev <+:
        (if c.Bool "r" = true then app.Routes.map (fun route => DeleteCall.route route.Guid)
          else []) ++ [.app app.Guid] ∧
      (routeErrors ev = [] → deleteCalls ev =
        (if c.Bool "r" = true then app.Routes.map (fun route => DeleteCall.route route.Guid)
          else []) ++ [.app app.Guid]) ∧
      (∀ apiErr ∈ routeErrors ev, (afterRead env c trace app).outcome = .failed apiErr [] ∧
        ∀ appGuid, DeleteCall.app appGuid ∉ deleteCalls ev) := by
  unfold afterRead
  by_cases hr : c.Bool "r" = true
  · simp only [hr, if_true]
    obtain ⟨ev, h1, h2, h3, h4, h5, h6⟩ := deleteRoutes_spec env app.Routes trace
    cases hres : deleteRoutes env trace app.Routes with
    | mk routeErr trace2 =>
      rw [hres] at h1 h5 h6
      simp only at h1 h5 h6
      cases routeErr with
      | some apiErr =>
        have he := h6 apiErr rfl
        refine ⟨ev ++ [.Failed apiErr []], by simp [Failed, h1],
          by simp [confirmCalls_append, h2, confirmCalls],
          by simp [readCalls_append, h3, readCalls], by simp,
          ?_, ?_, ?_⟩
        · simp only [deleteCalls_append, deleteCalls, List.append_nil]
          exact h4.trans (List.prefix_append _ _)
        · intro h
          simp [routeErrors_append, he] at h
        · intro e hmem
          simp only [routeErrors_append, he, routeErrors, List.append_nil,
            List.mem_singleton] at hmem
          subst hmem
          refine ⟨by simp [Failed], ?_⟩
          intro g hg
          simp only [deleteCalls_append, deleteCalls, List.append_nil] at hg
          have := List.mem_map.1 (h4.subset hg)
          obtain ⟨r, _, hr2⟩ := this
          cases hr2
      | none =>
        obtain ⟨h7, h8⟩ := h5 rfl
        simp only
        cases hd : env.AppDelete trace2 app.Guid with
        | some apiErr =>
          refine ⟨ev ++ [.AppDelete app.Guid (some apiErr), .Failed apiErr []],
            by simp [Failed, h1], by simp [confirmCalls_append, h2, confirmCalls],
            by simp [readCalls_append, h3, readCalls], by simp, ?_, ?_, ?_⟩
          · simp [deleteCalls_append, deleteCalls, h7]
          · intro _; simp [deleteCalls_append, deleteCalls, h7]
          · intro e hmem
            simp [routeErrors_append, h8, routeErrors] at hmem
        | none =>
          refine ⟨ev ++ [.AppDelete app.Guid none, .Ok], by simp [h1],
            by simp [confirmCalls_append, h2, confirmCalls],
            by simp [readCalls_append, h3, readCalls], by simp, ?_, ?_, ?_⟩
          · simp [deleteCalls_append, deleteCalls, h7]
          · intro _; simp [deleteCalls_append, deleteCalls, h7]
          · intro e hmem
            simp [routeErrors_append, h8, routeErrors] at hmem
  · have hr2 : c.Bool "r" = false := by simpa using hr
    simp only [hr2, Bool.false_eq_true, if_false]
    cases hd : env.AppDelete trace app.Guid with
    | some apiErr =>
      refine ⟨[.AppDelete app.Guid (some apiErr), .Failed apiErr []], by simp [Failed],
        rfl, rfl, fun _ => ⟨rfl, rfl⟩, ?_, fun _ => by simp [deleteCalls], ?_⟩
      · simp [deleteCalls]
      · intro e hmem; simp [routeErrors] at hmem
    | none =>
      refine ⟨[.AppDelete app.Guid none, .Ok], by simp,
        rfl, rfl, fun _ => ⟨rfl, rfl⟩, ?_, fun _ => by simp [deleteCalls], ?_⟩
      · simp [deleteCalls]
      · intro e hmem; simp [routeErrors] at hmem

end application

namespace application

theorem afterConfirm_spec (env : Env) (c : FlagContext) (trace : List Event)
    (appName : String) :
    ∃ result ev,
      (afterConfirm env c trace appName).trace =
        trace ++ [.Say (deleting env appName), .Read appName result] ++ ev ∧
      confirmCalls ev = [] ∧ readCalls ev = [] ∧
      (∀ app, result = .ok app →
        deleteCalls ev <+:
          (if c.Bool "r" = true then app.Routes.map (fun route => DeleteCall.route route.Guid)
            else []) ++ [.app app.Guid] ∧
        (routeErrors ev = [] → deleteCalls ev =
          (if c.Bool "r" = true then app.Routes.map (fun route => DeleteCall.route route.Guid)
            else []) ++ [.app app.Guid]) ∧
        (∀ apiErr ∈ routeErrors ev, (afterConfirm env c trace appName).outcome =
            .failed apiErr [] ∧
          ∀ appGuid, DeleteCall.app appGuid ∉ deleteCalls ev) ∧
        (c.Bool "r" = false → deleteCalls ev = [.app app.Guid])) ∧
      (∀ text, result = .err (.ModelNotFoundError text) →
        ev = [.Ok, .Warn ("App " ++ appName ++ " does not exist.")] ∧
        (afterConfirm env c trace appName).outcome = .returned) ∧
      (∀ text, result = .err (.other text) →
        ev = [.Failed text []] ∧
        (afterConfirm env c trace appName).outcome = .failed text []) ∧
      result = env.Read (trace ++ [.Say (deleting env appName)]) appName := by
  unfold afterConfirm
  simp only
  cases hres : env.Read (trace ++ [.Say ("Deleting app " ++ env.EntityNameColor appName
      ++ " in org " ++ env.EntityNameColor env.OrganizationName ++ " / space "
      ++ env.EntityNameColor env.SpaceName ++ " as " ++ env.EntityNameColor env.Username
      ++ "...")]) appName with
  | ok app =>
    obtain ⟨ev, h1, h2, h3, h4, h5, h6, h7⟩ := afterRead_spec env c
      (trace ++ [.Say (deleting env appName)] ++ [.Read appName (.ok app)]) app
    refine ⟨.ok app, ev, ?_, h2, h3, ?_, ?_, ?_, hres.symm⟩
    · simp only [deleting] at h1 ⊢
      rw [h1]; simp
    · intro app2 happ
      cases happ
      exact ⟨h5, h6, h7, fun hflag => (h4 hflag).1⟩
    · intro text h; cases h
    · intro text h; cases h
  | err apiErr =>
    cases apiErr with
    | ModelNotFoundError text =>
      refine ⟨.err (.ModelNotFoundError text), [.Ok, .Warn ("App " ++ appName ++
        " does not exist.")], by simp [deleting], rfl, rfl, ?_, ?_, ?_, hres.symm⟩
      · intro app h; cases h
      · intro t2 _; exact ⟨rfl, rfl⟩
      · intro t2 h; cases h
    | other text =>
      refine ⟨.err (.other text), [.Failed text []], by simp [deleting, Failed], rfl, rfl,
        ?_, ?_, ?_, hres.symm⟩
      · intro app h; cases h
      · intro t2 h; cases h
      · intro t2 h
        cases h
        exact ⟨rfl, rfl⟩

end application

namespace application

theorem Execute_cases (env : Env) (c : FlagContext) :
    (c.Args = [] ∧ Execute env c = ⟨.indexOutOfRange, []⟩) ∨
    (∃ appName rest, c.Args = appName :: rest ∧ c.Bool "f" = false ∧
      env.ConfirmDelete [] "app" appName = false ∧
      Execute env c = ⟨.returned, [.ConfirmDelete "app" appName false]⟩) ∨
    (∃ appName rest trace, c.Args = appName :: rest ∧
      Execute env c = afterConfirm env c trace appName ∧
      ((c.Bool "f" = true ∧ trace = []) ∨
       (c.Bool "f" = false ∧ env.ConfirmDelete [] "app" appName = true ∧
        trace = [.ConfirmDelete "app" appName true]))) := by
  unfold Execute
  cases hargs : c.Args with
  | nil => exact Or.inl ⟨rfl, rfl⟩
  | cons appName rest =>
    refine Or.inr ?_
    simp only
    cases hf : c.Bool "f" with
    | true =>
      exact Or.inr ⟨appName, rest, [], rfl, by simp, Or.inl ⟨rfl, rfl⟩⟩
    | false =>
      cases hresp : env.ConfirmDelete [] "app" appName with
      | false => exact Or.inl ⟨appName, rest, rfl, rfl, hresp, by simp⟩
      | true =>
        exact Or.inr ⟨appName, rest, [.ConfirmDelete "app" appName true], rfl, by simp,
          Or.inr ⟨rfl, hresp, rfl⟩⟩

theorem afterConfirm_proceeds (env : Env) (c : FlagContext) (pre : List Event)
    (appName : String) (hd : deleteCalls pre = []) (he : routeErrors pre = [])
    (hrd : readCalls pre = []) :
    confirmCalls (afterConfirm env c pre appName).trace = confirmCalls pre ∧
    readCalls (afterConfirm env c pre appName).trace = [appName] ∧
    Event.Read appName (env.Read (pre ++ [.Say (deleting env appName)]) appName) ∈
      (afterConfirm env c pre appName).trace ∧
    ∀ app, env.Read (pre ++ [.Say (deleting env appName)]) appName = .ok app →
      (c.Bool "r" = false →
        deleteCalls (afterConfirm env c pre appName).trace = [.app app.Guid]) ∧
      (c.Bool "r" = true → routeErrors (afterConfirm env c pre appName).trace = [] →
        deleteCalls (afterConfirm env c pre appName).trace =
          app.Routes.map (fun route => DeleteCall.route route.Guid) ++ [.app app.Guid]) := by
  obtain ⟨result, ev, htrace, hconf, hread, hok, _, _, hres⟩ :=
    afterConfirm_spec env c pre appName
  have hdel : deleteCalls (afterConfirm env c pre appName).trace = deleteCalls ev := by
    rw [htrace]; simp [deleteCalls_append, deleteCalls, hd]
  have herr : routeErrors (afterConfirm env c pre appName).trace = routeErrors ev := by
    rw [htrace]; simp [routeErrors_append, routeErrors, he]
  refine ⟨?_, ?_, ?_, ?_⟩
  · rw [htrace]; simp [confirmCalls_append, confirmCalls, hconf]
  · rw [htrace]; simp [readCalls_append, readCalls, hread, hrd]
  · rw [htrace, ← hres]; simp
  · intro app happ
    obtain ⟨_, h2, _, h4⟩ := hok app (hres.trans happ)
    rw [hdel, herr]
    refine ⟨h4, fun hflag hne => ?_⟩
    rw [if_pos hflag] at h2
    exact h2 hne

/-- C12: the `-f` flag of `delete` forces deletion without confirmation.  With `-f` set
`ConfirmDelete` is never called and the run goes straight on to `appRepo.Read` for the app name
and, when the app is read, to the deletion: `appRepo.Delete(app.Guid)` is called, after the
routes when `-r` is set and no route deletion fails.  Without `-f` `ConfirmDelete` is called
exactly once, for the model type `app` and the app name; when it returns false `Execute` returns
without a call of `appRepo.Read`, `routeRepo.Delete` or `appRepo.Delete`, and when it returns
true the run goes on as with `-f`. -/
theorem DeleteApp_force_flag (env : Env) (c : FlagContext) (appName : String)
    (rest : List String) (hargs : c.Args = appName :: rest) :
    (c.Bool "f" = true →
      confirmCalls (Execute env c).trace = [] ∧
      readCalls (Execute env c).trace = [appName] ∧
      Event.Read appName (env.Read [.Say (deleting env appName)] appName) ∈
        (Execute env c).trace ∧
      ∀ app, env.Read [.Say (deleting env appName)] appName = .ok app →
        (c.Bool "r" = false → deleteCalls (Execute env c).trace = [.app app.Guid]) ∧
        (c.Bool "r" = true → routeErrors (Execute env c).trace = [] →
          deleteCalls (Execute env c).trace =
            app.Routes.map (fun route => DeleteCall.route route.Guid) ++ [.app app.Guid])) ∧
    (c.Bool "f" = false → confirmCalls (Execute env c).trace = [("app", appName)]) ∧
    (c.Bool "f" = false → env.ConfirmDelete [] "app" appName = false →
      (Execute env c).outcome = .returned ∧ readCalls (Execute env c).trace = [] ∧
      deleteCalls (Execute env c).trace = []) ∧
    (c.Bool "f" = false → env.ConfirmDelete [] "app" appName = true →
      readCalls (Execute env c).trace = [appName] ∧
      Event.Read appName (env.Read [.ConfirmDelete "app" appName true,
          .Say (deleting env appName)] appName) ∈ (Execute env c).trace ∧
      ∀ app, env.Read [.ConfirmDelete "app" appName true, .Say (deleting env appName)] appName
          = .ok app →
        (c.Bool "r" = false → deleteCalls (Execute env c).trace = [.app app.Guid]) ∧
        (c.Bool "r" = true → routeErrors (Execute env c).trace = [] →
          deleteCalls (Execute env c).trace =
            app.Routes.map (fun route => DeleteCall.route route.Guid) ++ [.app app.Guid])) := by
  rcases Execute_cases env c with ⟨h0, _⟩ | ⟨a, r, ha, hf, hresp, hex⟩ |
    ⟨a, r, trace, ha, hex, hcase⟩
  · rw [hargs] at h0; cases h0
  · rw [hargs] at ha; cases ha
    rw [hex]
    refine ⟨fun h => ?_, fun _ => rfl, fun _ _ => ⟨rfl, rfl, rfl⟩, fun _ h => ?_⟩
    · rw [hf] at h; cases h
    · rw [hresp] at h; cases h
  · rw [hargs] at ha; cases ha
    rw [hex]
    rcases hcase with ⟨hf, rfl⟩ | ⟨hf, hresp, rfl⟩
    · obtain ⟨h1, h2, h3, h4⟩ := afterConfirm_proceeds env c [] appName rfl rfl rfl
      refine ⟨fun _ => ⟨h1, h2, h3, h4⟩, fun h => ?_, fun h => ?_, fun h => ?_⟩
      · rw [hf] at h; cases h
      · rw [hf] at h; cases h
      · rw [hf] at h; cases h
    · obtain ⟨h1, h2, h3, h4⟩ := afterConfirm_proceeds env c
        [.ConfirmDelete "app" appName true] appName rfl rfl rfl
      refine ⟨fun h => ?_, fun _ => h1, fun _ h => ?_, fun _ _ => ⟨h2, h3, h4⟩⟩
      · rw [hf] at h; cases h
      · rw [hresp] at h; cases h

theorem DeleteApp_force_flag_witness :
    ((⟨["app1"], fun _ => true⟩ : FlagContext).Args = "app1" :: [] ∧
      (⟨["app1"], fun _ => true⟩ : FlagContext).Bool "f" = true ∧
      confirmCalls (Execute (fixedEnv false (.ok ⟨"g1", [⟨"r1"⟩]⟩) "")
        ⟨["app1"], fun _ => true⟩).trace = [] ∧
      readCalls (Execute (fixedEnv false (.ok ⟨"g1", [⟨"r1"⟩]⟩) "")
        ⟨["app1"], fun _ => true⟩).trace = ["app1"] ∧
      deleteCalls (Execute (fixedEnv false (.ok ⟨"g1", [⟨"r1"⟩]⟩) "")
        ⟨["app1"], fun _ => true⟩).trace = [.route "r1", .app "g1"]) ∧
    ((⟨["app1"], fun _ => false⟩ : FlagContext).Args = "app1" :: [] ∧
      (⟨["app1"], fun _ => false⟩ : FlagContext).Bool "f" = false ∧
      confirmCalls (Execute (fixedEnv false (.ok ⟨"g1", [⟨"r1"⟩]⟩) "")
        ⟨["app1"], fun _ => false⟩).trace = [("app", "app1")] ∧
      (Execute (fixedEnv false (.ok ⟨"g1", [⟨"r1"⟩]⟩) "")
        ⟨["app1"], fun _ => false⟩).outcome = .returned ∧
      readCalls (Execute (fixedEnv false (.ok ⟨"g1", [⟨"r1"⟩]⟩) "")
        ⟨["app1"], fun _ => false⟩).trace = [] ∧
      deleteCalls (Execute (fixedEnv false (.ok ⟨"g1", [⟨"r1"⟩]⟩) "")
        ⟨["app1"], fun _ => false⟩).trace = []) ∧
    ((⟨["app1"], fun _ => false⟩ : FlagContext).Args = "app1" :: [] ∧
      (fixedEnv true (.ok ⟨"g1", [⟨"r1"⟩]⟩) "").ConfirmDelete [] "app" "app1" = true ∧
      readCalls (Execute (fixedEnv true (.ok ⟨"g1", [⟨"r1"⟩]⟩) "")
        ⟨["app1"], fun _ => false⟩).trace = ["app1"] ∧
      deleteCalls (Execute (fixedEnv true (.ok ⟨"g1", [⟨"r1"⟩]⟩) "")
        ⟨["app1"], fun _ => false⟩).trace = [.app "g1"]) :=
  ⟨⟨rfl, rfl,
      ((DeleteApp_force_flag (fixedEnv false (.ok ⟨"g1", [⟨"r1"⟩]⟩) "")
        ⟨["app1"], fun _ => true⟩ "app1" [] rfl).1 rfl).1,
      ((DeleteApp_force_flag (fixedEnv false (.ok ⟨"g1", [⟨"r1"⟩]⟩) "")
        ⟨["app1"], fun _ => true⟩ "app1" [] rfl).1 rfl).2.1,
      ((((DeleteApp_force_flag (fixedEnv false (.ok ⟨"g1", [⟨"r1"⟩]⟩) "")
        ⟨["app1"], fun _ => true⟩ "app1" [] rfl).1 rfl).2.2.2
          ⟨"g1", [⟨"r1"⟩]⟩ rfl).2 rfl (by decide))⟩,
    ⟨rfl, rfl,
      (DeleteApp_force_flag (fixedEnv false (.ok ⟨"g1", [⟨"r1"⟩]⟩) "")
        ⟨["app1"], fun _ => false⟩ "app1" [] rfl).2.1 rfl,
      (DeleteApp_force_flag (fixedEnv false (.ok ⟨"g1", [⟨"r1"⟩]⟩) "")
        ⟨["app1"], fun _ => false⟩ "app1" [] rfl).2.2.1 rfl rfl⟩,
    ⟨rfl, rfl,
      ((DeleteApp_force_flag (fixedEnv true (.ok ⟨"g1", [⟨"r1"⟩]⟩) "")
        ⟨["app1"], fun _ => false⟩ "app1" [] rfl).2.2.2 rfl rfl).1,
      ((((DeleteApp_force_flag (fixedEnv true (.ok ⟨"g1", [⟨"r1"⟩]⟩) "")
        ⟨["app1"], fun _ => false⟩ "app1" [] rfl).2.2.2 rfl rfl).2.2
          ⟨"g1", [⟨"r1"⟩]⟩ rfl).1 rfl)⟩⟩

end application

namespace application

/-- C13: for every run of `delete` that read the app: when the read succeeded and `-r` is set,
the `Delete` calls are the routes of the app, each once and in the app's route order, followed by
`appRepo.Delete(app.Guid)`, the whole list when no route deletion returned an error and an
initial part of it otherwise; when a route deletion returns an error the command fails with that
error and `appRepo.Delete` is not called; without `-r` the only `Delete` call is the one for the
app; when `Read` reports a `ModelNotFoundError` nothing is deleted and the command returns after
`Ok` and the warning that the app does not exist. -/
theorem DeleteApp_routes_flag (env : Env) (c : FlagContext) (name : String)
    (result : ReadResult) (hr : Event.Read name result ∈ (Execute env c).trace) :
    (∀ app, result = .ok app →
      (c.Bool "r" = true →
        deleteCalls (Execute env c).trace <+:
          app.Routes.map (fun route => DeleteCall.route route.Guid) ++ [.app app.Guid] ∧
        (routeErrors (Execute env c).trace = [] →
          deleteCalls (Execute env c).trace =
            app.Routes.map (fun route => DeleteCall.route route.Guid) ++ [.app app.Guid])) ∧
      (∀ apiErr ∈ routeErrors (Execute env c).trace,
        (Execute env c).outcome = .failed apiErr [] ∧
        ∀ appGuid, DeleteCall.app appGuid ∉ deleteCalls (Execute env c).trace) ∧
      (c.Bool "r" = false → deleteCalls (Execute env c).trace = [.app app.Guid])) ∧
    (∀ text, result = .err (.ModelNotFoundError text) →
      deleteCalls (Execute env c).trace = [] ∧
      (Execute env c).outcome = .returned ∧
      ∃ pre, (Execute env c).trace =
        pre ++ [.Ok, .Warn ("App " ++ name ++ " does not exist.")]) := by
  rcases Execute_cases env c with ⟨_, hex⟩ | ⟨a, r, _, _, _, hex⟩ | ⟨a, r, trace, _, hex, hcase⟩
  · rw [hex] at hr; cases hr
  · rw [hex] at hr; simp at hr
  · obtain ⟨res, ev, htrace, _, hread, hok, hnf, _⟩ := afterConfirm_spec env c trace a
    rw [hex] at hr ⊢
    have hpre : deleteCalls trace = [] ∧ routeErrors trace = [] ∧
        ∀ n x, Event.Read n x ∉ trace := by
      rcases hcase with ⟨_, rfl⟩ | ⟨_, _, rfl⟩
      · exact ⟨rfl, rfl, fun n x h => by cases h⟩
      · exact ⟨rfl, rfl, fun n x h => by simp at h⟩
    obtain ⟨hp1, hp2, hp3⟩ := hpre
    have hid : name = a ∧ result = res := by
      rw [htrace] at hr
      simp only [List.mem_append, List.mem_cons, List.mem_singleton, Event.Read.injEq,
        List.not_mem_nil, or_false] at hr
      rcases hr with (h | h | h) | h
      · exact absurd h (hp3 _ _)
      · cases h
      · exact h
      · have := mem_readCalls _ _ _ h
        rw [hread] at this; cases this
    obtain ⟨rfl, rfl⟩ := hid
    have hdel : deleteCalls (afterConfirm env c trace name).trace = deleteCalls ev := by
      rw [htrace]; simp [deleteCalls_append, deleteCalls, hp1]
    have herr : routeErrors (afterConfirm env c trace name).trace = routeErrors ev := by
      rw [htrace]; simp [routeErrors_append, routeErrors, hp2]
    rw [hdel, herr]
    refine ⟨fun app happ => ?_, fun text hres => ?_⟩
    · obtain ⟨h1, h2, h3, h4⟩ := hok app happ
      refine ⟨fun hflag => ?_, h3, h4⟩
      rw [if_pos hflag] at h1 h2
      exact ⟨h1, h2⟩
    · obtain ⟨hev, hout⟩ := hnf text hres
      refine ⟨by rw [hev]; rfl, hout, ?_⟩
      rw [htrace, hev]
      exact ⟨_, rfl⟩

end application

namespace application

theorem DeleteApp_routes_flag_witness :
    (∀ app, ReadResult.ok ⟨"g1", [⟨"r1"⟩, ⟨"r2"⟩]⟩ = .ok app →
      ((⟨["app1"], fun _ => true⟩ : FlagContext).Bool "r" = true →
        deleteCalls (Execute (fixedEnv true (.ok ⟨"g1", [⟨"r1"⟩, ⟨"r2"⟩]⟩) "r2")
            ⟨["app1"], fun _ => true⟩).trace <+:
          app.Routes.map (fun route => DeleteCall.route route.Guid) ++ [.app app.Guid] ∧
        (routeErrors (Execute (fixedEnv true (.ok ⟨"g1", [⟨"r1"⟩, ⟨"r2"⟩]⟩) "r2")
            ⟨["app1"], fun _ => true⟩).trace = [] →
          deleteCalls (Execute (fixedEnv true (.ok ⟨"g1", [⟨"r1"⟩, ⟨"r2"⟩]⟩) "r2")
            ⟨["app1"], fun _ => true⟩).trace =
            app.Routes.map (fun route => DeleteCall.route route.Guid) ++ [.app app.Guid])) ∧
      (∀ apiErr ∈ routeErrors (Execute (fixedEnv true (.ok ⟨"g1", [⟨"r1"⟩, ⟨"r2"⟩]⟩) "r2")
          ⟨["app1"], fun _ => true⟩).trace,
        (Execute (fixedEnv true (.ok ⟨"g1", [⟨"r1"⟩, ⟨"r2"⟩]⟩) "r2")
          ⟨["app1"], fun _ => true⟩).outcome = .failed apiErr [] ∧
        ∀ appGuid, DeleteCall.app appGuid ∉
          deleteCalls (Execute (fixedEnv true (.ok ⟨"g1", [⟨"r1"⟩, ⟨"r2"⟩]⟩) "r2")
            ⟨["app1"], fun _ => true⟩).trace) ∧
      ((⟨["app1"], fun _ => true⟩ : FlagContext).Bool "r" = false →
        deleteCalls (Execute (fixedEnv true (.ok ⟨"g1", [⟨"r1"⟩, ⟨"r2"⟩]⟩) "r2")
          ⟨["app1"], fun _ => true⟩).trace = [.app app.Guid])) ∧
    (∀ text, ReadResult.ok ⟨"g1", [⟨"r1"⟩, ⟨"r2"⟩]⟩ = .err (.ModelNotFoundError text) →
      deleteCalls (Execute (fixedEnv true (.ok ⟨"g1", [⟨"r1"⟩, ⟨"r2"⟩]⟩) "r2")
        ⟨["app1"], fun _ => true⟩).trace = [] ∧
      (Execute (fixedEnv true (.ok ⟨"g1", [⟨"r1"⟩, ⟨"r2"⟩]⟩) "r2")
        ⟨["app1"], fun _ => true⟩).outcome = .returned ∧
      ∃ pre, (Execute (fixedEnv true (.ok ⟨"g1", [⟨"r1"⟩, ⟨"r2"⟩]⟩) "r2")
        ⟨["app1"], fun _ => true⟩).trace =
        pre ++ [.Ok, .Warn ("App " ++ "app1" ++ " does not exist.")]) :=
  DeleteApp_routes_flag (fixedEnv true (.ok ⟨"g1", [⟨"r1"⟩, ⟨"r2"⟩]⟩) "r2")
    ⟨["app1"], fun _ => true⟩ "app1" (.ok ⟨"g1", [⟨"r1"⟩, ⟨"r2"⟩]⟩) (by decide)

end application

/-! ## `ListOrgs` -/

namespace organizations

theorem ListPaginatedResources_limit {OrganizationResource Organization : Type}
    (ToModel : OrganizationResource → Organization) (limit : Int) (hl : 0 < limit)
    (rs : List OrganizationResource) (orgs : List Organization)
    (hacc : (orgs.length : Int) < limit) :
    ListPaginatedResources (callback ToModel limit) (rs.map Resource.OrganizationResource) orgs
      = orgs ++ (rs.take (limit.toNat - orgs.length)).map ToModel := by
  induction rs generalizing orgs with
  | nil => simp [ListPaginatedResources]
  | cons r rest ih =>
    have hne : limit ≠ 0 := by omega
    by_cases hlt : ((orgs ++ [ToModel r]).length : Int) < limit
    · have hstep : ListPaginatedResources (callback ToModel limit)
          ((r :: rest).map Resource.OrganizationResource) orgs =
          ListPaginatedResources (callback ToModel limit)
            (rest.map Resource.OrganizationResource) (orgs ++ [ToModel r]) := by
        simp only [List.map_cons, ListPaginatedResources, callback, hne, hlt, decide_False,
          decide_True, Bool.false_or]
      rw [hstep, ih (orgs ++ [ToModel r]) hlt]
      have hlen : limit.toNat - orgs.length = (limit.toNat - (orgs ++ [ToModel r]).length) + 1 := by
        simp only [List.length_append, List.length_singleton] at hlt ⊢
        omega
      rw [hlen, List.take_succ_cons]
      simp
    · have hstep : ListPaginatedResources (callback ToModel limit)
          ((r :: rest).map Resource.OrganizationResource) orgs = orgs ++ [ToModel r] := by
        simp only [List.map_cons, ListPaginatedResources, callback, hne, hlt, decide_False,
          Bool.false_or]
      rw [hstep]
      have hlen : limit.toNat - orgs.length = 1 := by
        simp only [List.length_append, List.length_singleton] at hlt
        omega
      rw [hlen]
      simp

theorem ListPaginatedResources_unlimited {OrganizationResource Organization : Type}
    (ToModel : OrganizationResource → Organization)
    (rs : List OrganizationResource) (orgs : List Organization) :
    ListPaginatedResources (callback ToModel 0) (rs.map Resource.OrganizationResource) orgs
      = orgs ++ rs.map ToModel := by
  induction rs generalizing orgs with
  | nil => simp [ListPaginatedResources]
  | cons r rest ih =>
    have hstep : ListPaginatedResources (callback ToModel 0)
        ((r :: rest).map Resource.OrganizationResource) orgs =
        ListPaginatedResources (callback ToModel 0)
          (rest.map Resource.OrganizationResource) (orgs ++ [ToModel r]) := by
      simp [ListPaginatedResources, callback]
    rw [hstep, ih]
    simp

/-- C14: with the gateway delivering the organization resources one by one, in order, until the
callback returns false: for every resource sequence of length `n` and every `limit > 0`,
`ListOrgs` returns exactly the first `min(limit, n)` organizations in gateway order, never more
than `limit`; for `limit = 0` it returns all `n`. -/
theorem ListOrgs_limit {OrganizationResource Organization : Type}
    (ToModel : OrganizationResource → Organization) (rs : List OrganizationResource)
    (err : Option String) (limit : Int) :
    (0 < limit →
      (ListOrgs ToModel (rs.map Resource.OrganizationResource) err limit).1 =
        (rs.take limit.toNat).map ToModel ∧
      (ListOrgs ToModel (rs.map Resource.OrganizationResource) err limit).1.length =
        min limit.toNat rs.length ∧
      ((ListOrgs ToModel (rs.map Resource.OrganizationResource) err limit).1.length : Int)
        ≤ limit) ∧
    (limit = 0 →
      (ListOrgs ToModel (rs.map Resource.OrganizationResource) err limit).1 = rs.map ToModel ∧
      (ListOrgs ToModel (rs.map Resource.OrganizationResource) err limit).1.length
        = rs.length) ∧
    (ListOrgs ToModel (rs.map Resource.OrganizationResource) err limit).2 = err := by
  refine ⟨fun hl => ?_, fun h0 => ?_, rfl⟩
  · have h := ListPaginatedResources_limit ToModel limit hl rs [] (by simpa using hl)
    simp only [List.length_nil, Nat.sub_zero, List.nil_append] at h
    simp only [ListOrgs, h, List.length_map, List.length_take]
    refine ⟨trivial, trivial, ?_⟩
    have : min limit.toNat rs.length ≤ limit.toNat := Nat.min_le_left _ _
    omega
  · subst h0
    have h := ListPaginatedResources_unlimited ToModel rs []
    simp only [List.nil_append] at h
    simp [ListOrgs, h]

end organizations
